import Mathlib

/-!
# libbitcoin chainv2 transaction: serialization and validation

A shallow embedding of `src/src/chainv2/transaction.cpp`.  Stateful member
functions become functions that take and return the transaction (and the
reader); `uint32_t`, `uint64_t` and `size_t` values are natural numbers with
explicit reduction where the source narrows or may wrap; the one throwing
helper (`safe_unsigned`) is modelled with `Option`.

The headers the file includes (reader, writer, input, output, point, script,
constants, limits) are not part of the sources at hand.  Their data types are
modelled from the data model of the specification, and their functions and
constants are collected in the record `externals`, a parameter of every
definition that uses one.
-/

namespace chainv2

/-! ## Bytes, writer and reader -/

/-- Byte string (`data_chunk`); every element is a byte value. -/
abbrev data_chunk := List Nat

/-- Largest `uint32_t`. -/
def max_uint32 : Nat := 2 ^ 32 - 1

/-- Largest `uint64_t`. -/
def max_uint64 : Nat := 2 ^ 64 - 1

/-- Largest `size_t` (64-bit target). -/
def max_size_t : Nat := 2 ^ 64 - 1

/-- Modelled from the spec: `to_little_endian` of endian.hpp (not under src/),
the `n` low bytes of `v`, least significant first. -/
def to_little_endian : Nat → Nat → data_chunk
  | 0, _ => []
  | n + 1, v => (v % 256) :: to_little_endian n (v / 256)

/-- Modelled from the spec: `writer::write_4_bytes_little_endian` (writer.hpp is
not under src/); the bytes appended to the sink. -/
def write_4_bytes_little_endian (v : Nat) : data_chunk :=
  to_little_endian 4 v

/-- Modelled from the spec: `writer::write_variable_little_endian`, the compact
variable-length integer of the wire protocol (writer.hpp is not under src/). -/
def write_variable_little_endian (v : Nat) : data_chunk :=
  if v < 0xfd then [v]
  else if v ≤ 0xffff then 0xfd :: to_little_endian 2 v
  else if v ≤ 0xffffffff then 0xfe :: to_little_endian 4 v
  else 0xff :: to_little_endian 8 v

/-- Modelled from the spec: `message::variable_uint_size` (messages.hpp is not
under src/), the byte count of the compact variable-length integer. -/
def variable_uint_size (v : Nat) : Nat :=
  if v < 0xfd then 1
  else if v ≤ 0xffff then 3
  else if v ≤ 0xffffffff then 5
  else 9

/-- Modelled from the spec: the `reader` over a byte source (reader.hpp and
istream_reader.hpp are not under src/): the unread bytes and the validity flag
that `operator bool` reports. -/
structure reader where
  bytes : data_chunk
  valid : Bool
deriving DecidableEq, Repr

/-- Modelled from the spec: `data_source` / `istream_reader` construction over a
byte string: a valid reader positioned at its first byte. -/
def reader.of_data (data : data_chunk) : reader := ⟨data, true⟩

/-- Modelled from the spec: `reader::invalidate`, which marks the reader
invalid. -/
def reader.invalidate (s : reader) : reader := ⟨s.bytes, false⟩

/-- Modelled from the spec: `reader::read_byte`; a read that cannot be served
marks the reader invalid and yields zero. -/
def reader.read_byte (s : reader) : Nat × reader :=
  if s.valid then
    match s.bytes with
    | [] => (0, ⟨[], false⟩)
    | b :: rest => (b % 256, ⟨rest, true⟩)
  else (0, s)

/-- Modelled from the spec: little-endian read of `n` bytes from the reader. -/
def reader.read_little_endian : Nat → reader → Nat × reader
  | 0, s => (0, s)
  | n + 1, s =>
    let r := s.read_byte
    let t := reader.read_little_endian n r.2
    (r.1 + 256 * t.1, t.2)

/-- Modelled from the spec: `reader::read_4_bytes_little_endian`. -/
def reader.read_4_bytes_little_endian (s : reader) : Nat × reader :=
  s.read_little_endian 4

/-- Modelled from the spec: `reader::read_variable_little_endian`, the inverse of
`write_variable_little_endian`. -/
def reader.read_variable_little_endian (s : reader) : Nat × reader :=
  let r := s.read_byte
  if r.1 = 0xff then r.2.read_little_endian 8
  else if r.1 = 0xfe then r.2.read_little_endian 4
  else if r.1 = 0xfd then r.2.read_little_endian 2
  else r

/-- Modelled from the spec: `reader::read_size_little_endian`, a variable-length
integer narrowed to `size_t`; a value that does not fit invalidates the reader
and reads as zero. -/
def reader.read_size_little_endian (s : reader) : Nat × reader :=
  let r := s.read_variable_little_endian
  if r.1 ≤ max_size_t then r else (0, r.2.invalidate)

/-! ## Data model -/

/-- Modelled from the spec: `point` (point.hpp is not under src/), an outpoint
reference: previous transaction hash and output index. -/
structure point where
  hash : Nat
  index : Nat
deriving DecidableEq, Repr

/-- Modelled from the spec: `point::is_null`, the distinguished null point
(all-zero hash, max-value index). -/
def point.is_null (p : point) : Bool :=
  p.index == max_uint32 && p.hash == 0

/-- Modelled from the spec: the total order over (hash, index) that
`point::operator<` provides, in its non-strict form. -/
def point.le (a b : point) : Prop :=
  a.hash < b.hash ∨ (a.hash = b.hash ∧ a.index ≤ b.index)

instance point.decidable_le : DecidableRel point.le :=
  fun a b => by unfold point.le; exact inferInstance

instance point.le_is_total : IsTotal point point.le :=
  ⟨fun a b => by unfold point.le; omega⟩

instance point.le_is_trans : IsTrans point point.le :=
  ⟨fun a b c hab hbc => by unfold point.le at *; omega⟩

/-- Modelled from the spec: `output` (output.hpp is not under src/): a 64-bit
value and a locking script. -/
structure output where
  value : Nat
  script : data_chunk
deriving DecidableEq, Repr

/-- Modelled from the spec: the validation annex of an `output_point`
(output_point.hpp is not under src/): the maybe-valid cached previous output
and its spent / confirmed status. -/
structure validation_type where
  cache : Option output
  spent : Bool
  confirmed : Bool
deriving DecidableEq, Repr

/-- Modelled from the spec: `output.is_valid()` on the cache entry. -/
def validation_type.cache_is_valid (v : validation_type) : Bool :=
  v.cache.isSome

/-- Modelled from the spec: `output.value()` on the cache entry (only read when
the entry is valid). -/
def validation_type.cache_value (v : validation_type) : Nat :=
  match v.cache with
  | some o => o.value
  | none => max_uint64

/-- Modelled from the spec: `output_point` (output_point.hpp is not under src/),
a point together with its validation annex. -/
structure output_point where
  hash : Nat
  index : Nat
  validation : validation_type
deriving DecidableEq, Repr

/-- The `point` base of an `output_point` (the slice that a `point::list`
stores). -/
def output_point.to_point (p : output_point) : point := ⟨p.hash, p.index⟩

/-- Modelled from the spec: `point::is_null` on an `output_point`. -/
def output_point.is_null (p : output_point) : Bool := p.to_point.is_null

/-- Modelled from the spec: `input` (input.hpp is not under src/). -/
structure input where
  previous_output : output_point
  script : data_chunk
  sequence : Nat
deriving DecidableEq, Repr

/-- Modelled from the spec: `input::operator==`, structural over the point, the
script and the sequence; the validation annex is not part of the value. -/
def input.eq (a b : input) : Bool :=
  decide (a.previous_output.to_point = b.previous_output.to_point)
    && decide (a.script = b.script) && decide (a.sequence = b.sequence)

/-- Modelled from the spec: `output::operator==`, structural over value and
script. -/
def output.eq (a b : output) : Bool :=
  decide (a.value = b.value) && decide (a.script = b.script)

/-- Element-wise `std::vector::operator==` over an element equality. -/
def vector_eq {α : Type} (eq : α → α → Bool) : List α → List α → Bool
  | [], [] => true
  | a :: as, b :: bs => eq a b && vector_eq eq as bs
  | _, _ => false

/-- The transaction entity: the four data members of `transaction`. -/
structure transaction where
  version_ : Nat
  locktime_ : Nat
  inputs_ : List input
  outputs_ : List output
deriving DecidableEq, Repr

/-- Modelled from the spec: the closed enumeration of error kinds (error.hpp is
not under src/); the members are those the specification lists. -/
inductive code where
  | success
  | empty_transaction
  | previous_output_null
  | spend_overflow
  | invalid_coinbase_script_size
  | coinbase_transaction
  | transaction_internal_double_spend
  | transaction_size_limit
  | premature_validation
  | transaction_non_final
  | unspent_duplicate
  | missing_previous_output
  | double_spend
  | coinbase_maturity
  | spend_exceeds_value
  | sequence_locked
  | transaction_embedded_sigop_limit
  | operation_failed
deriving DecidableEq, Repr

/-- Conversion of `code` to `bool`: true exactly for an error. -/
def code.to_bool (c : code) : Bool := decide (c ≠ code.success)

/-- Modelled from the spec: the fork flags that `accept` queries (rule_fork.hpp
is not under src/). -/
inductive rule_fork where
  | bip16_rule
  | bip30_rule
  | bip68_rule
  | allow_collisions
deriving DecidableEq, Repr

/-- Modelled from the spec: the chain-state collaborator (chain_state.hpp is not
under src/): `height()`, `median_time_past()`, `enabled_forks()`,
`is_enabled(fork)` and `is_under_checkpoint()`. -/
structure chain_state where
  height : Nat
  median_time_past : Nat
  enabled_forks : Nat
  is_enabled : rule_fork → Bool
  is_under_checkpoint : Bool

/-- Constants and functions of headers that are not under src/, taken as
parameters: constants.hpp, input.hpp, output.hpp, output_point.hpp, script.hpp
and the hash primitive. -/
structure externals where
  max_block_size : Nat
  max_block_sigops : Nat
  max_money : Nat
  min_coinbase_size : Nat
  max_coinbase_size : Nat
  locktime_threshold : Nat
  relative_locktime_min_version : Nat
  input_default : input
  input_from_data : input → reader → Bool → Bool × input × reader
  input_to_data : input → Bool → data_chunk
  input_serialized_size : input → Bool → Nat
  input_is_final : input → Bool
  input_is_locked : input → Nat → Nat → Bool
  input_signature_operations : input → Bool → Nat
  output_default : output
  output_from_data : output → reader → Bool → Bool × output × reader
  output_to_data : output → Bool → data_chunk
  output_serialized_size : output → Bool → Nat
  output_signature_operations : output → Nat
  point_is_mature : output_point → Nat → Bool
  script_serialized_size : data_chunk → Bool → Nat
  script_verify : transaction → Nat → Nat → code
  bitcoin_hash : data_chunk → Nat

/-! ## The two file-local templates: `read` and `write` -/

/-- The effect of `puts.resize(count)`: keep the first `count` elements and pad
with value-initialised ones. -/
def resize {Put : Type} (init : Put) (puts : List Put) (count : Nat) : List Put :=
  puts.take count ++ List.replicate (count - puts.length) init

/-- The `std::for_each` of `read` with its lambda
`result = result && put.from_data(source, wire)`: once `result` is false the
remaining elements are left as they are. -/
def deserialize_each {Put : Type} (from_data : Put → reader → Bool → Bool × Put × reader)
    (wire : Bool) : Bool → reader → List Put → Bool × reader × List Put
  | result, source, [] => (result, source, [])
  | result, source, put :: rest =>
    if result then
      let r := from_data put source wire
      let t := deserialize_each from_data wire r.1 r.2.2 rest
      (t.1, t.2.1, r.2.1 :: t.2.2)
    else
      let t := deserialize_each from_data wire false source rest
      (t.1, t.2.1, put :: t.2.2)

/-- Read a length-prefixed collection of inputs or outputs from the source
(`read`); yields the result flag, the reader and the collection. -/
def read {Put : Type} (E : externals) (init : Put)
    (from_data : Put → reader → Bool → Bool × Put × reader)
    (source : reader) (puts : List Put) (wire : Bool) : Bool × reader × List Put :=
  let c := source.read_size_little_endian
  let count := c.1
  let guarded : reader × List Put :=
    if count > E.max_block_size then (c.2.invalidate, puts)
    else (c.2, resize init puts count)
  deserialize_each from_data wire true guarded.1 guarded.2

/-- Write a length-prefixed collection of inputs or outputs to the sink
(`write`); yields the sink. -/
def write {Put : Type} (to_data : Put → Bool → data_chunk)
    (sink : data_chunk) (puts : List Put) (wire : Bool) : data_chunk :=
  puts.foldl (fun sink put => sink ++ to_data put wire)
    (sink ++ write_variable_little_endian puts.length)

/-! ## Operators, deserialization, serialization, size -/

/-- The friend `operator==` of `transaction`. -/
def transaction.eq (a b : transaction) : Bool :=
  decide (a.version_ = b.version_) && decide (a.locktime_ = b.locktime_)
    && vector_eq input.eq a.inputs_ b.inputs_
    && vector_eq output.eq a.outputs_ b.outputs_

/-- The protected `transaction::reset`. -/
def transaction.reset (_self : transaction) : transaction :=
  ⟨0, 0, [], []⟩

/-- The member `transaction::is_valid`. -/
def transaction.is_valid (self : transaction) : Bool :=
  (self.version_ != 0) || (self.locktime_ != 0) || !self.inputs_.isEmpty
    || !self.outputs_.isEmpty

/-- The member `transaction::from_data(reader& source, bool wire)`: the returned
flag, the transaction afterwards and the reader afterwards. -/
def transaction.from_data (E : externals) (self : transaction) (source : reader)
    (wire : Bool) : Bool × transaction × reader :=
  let self := self.reset
  let parsed : transaction × reader :=
    if wire then
      let version := source.read_4_bytes_little_endian
      let ins := read E E.input_default E.input_from_data version.2 self.inputs_ wire
      let outs :=
        if ins.1 then read E E.output_default E.output_from_data ins.2.1 self.outputs_ wire
        else (false, ins.2.1, self.outputs_)
      let locktime := outs.2.1.read_4_bytes_little_endian
      (⟨version.1, locktime.1, ins.2.2, outs.2.2⟩, locktime.2)
    else
      let outs := read E E.output_default E.output_from_data source self.outputs_ wire
      let ins :=
        if outs.1 then read E E.input_default E.input_from_data outs.2.1 self.inputs_ wire
        else (false, outs.2.1, self.inputs_)
      let locktime := ins.2.1.read_variable_little_endian
      let version := locktime.2.read_variable_little_endian
      let source :=
        if locktime.1 > max_uint32 ∨ version.1 > max_uint32 then version.2.invalidate
        else version.2
      (⟨version.1 % 2 ^ 32, locktime.1 % 2 ^ 32, ins.2.2, outs.2.2⟩, source)
  let self := if !parsed.2.valid then parsed.1.reset else parsed.1
  (parsed.2.valid, self, parsed.2)

/-- The member `transaction::from_data(data_chunk const& data, bool wire)`. -/
def transaction.from_data_chunk (E : externals) (self : transaction) (data : data_chunk)
    (wire : Bool) : Bool × transaction :=
  let r := self.from_data E (reader.of_data data) wire
  (r.1, r.2.1)

/-- The member `transaction::to_data(writer& sink, bool wire)`; yields the sink. -/
def transaction.to_data_sink (E : externals) (self : transaction) (sink : data_chunk)
    (wire : Bool) : data_chunk :=
  if wire then
    let sink := sink ++ write_4_bytes_little_endian self.version_
    let sink := write E.input_to_data sink self.inputs_ wire
    let sink := write E.output_to_data sink self.outputs_ wire
    sink ++ write_4_bytes_little_endian self.locktime_
  else
    let sink := write E.output_to_data sink self.outputs_ wire
    let sink := write E.input_to_data sink self.inputs_ wire
    let sink := sink ++ write_variable_little_endian self.locktime_
    sink ++ write_variable_little_endian self.version_

/-- Addition of two `size_t` values (wraps modulo 2^64). -/
def size_add (a b : Nat) : Nat := (a + b) % 2 ^ 64

/-- The member `transaction::serialized_size`. -/
def transaction.serialized_size (E : externals) (self : transaction) (wire : Bool) : Nat :=
  let ins := fun (size : Nat) (i : input) => size_add size (E.input_serialized_size i wire)
  let outs := fun (size : Nat) (o : output) => size_add size (E.output_serialized_size o wire)
  size_add (size_add (size_add (size_add (size_add
    (if wire then 4 else variable_uint_size self.version_)
    (if wire then 4 else variable_uint_size self.locktime_))
    (variable_uint_size self.inputs_.length))
    (variable_uint_size self.outputs_.length))
    (self.inputs_.foldl ins 0))
    (self.outputs_.foldl outs 0)

/-- The member `transaction::to_data(bool wire)`: the bytes written to a fresh
sink. -/
def transaction.to_data (E : externals) (self : transaction) (wire : Bool) : data_chunk :=
  self.to_data_sink E [] wire

/-- The condition of `BITCOIN_ASSERT(data.size() == size)` in
`transaction::to_data(bool wire)`. -/
def transaction.to_data_assertion (E : externals) (self : transaction) (wire : Bool) : Bool :=
  decide ((self.to_data E wire).length = self.serialized_size E wire)

/-- The member `transaction::hash()`. -/
def transaction.hash (E : externals) (self : transaction) : Nat :=
  E.bitcoin_hash (self.to_data E true)

/-- The member `transaction::hash(uint32_t sighash_type)`. -/
def transaction.hash_sighash (E : externals) (self : transaction) (sighash_type : Nat) : Nat :=
  let serialized := self.to_data E true
  E.bitcoin_hash (serialized ++ to_little_endian 4 sighash_type)

/-! ## Validation helpers -/

/-- The member `transaction::is_coinbase`. -/
def transaction.is_coinbase (self : transaction) : Bool :=
  self.inputs_.length == 1 &&
    (match self.inputs_.head? with
     | some front => front.previous_output.is_null
     | none => false)

/-- The member `transaction::is_oversized_coinbase`. -/
def transaction.is_oversized_coinbase (E : externals) (self : transaction) : Bool :=
  if !self.is_coinbase then false
  else
    match self.inputs_.head? with
    | some front =>
      let script_size := E.script_serialized_size front.script false
      decide (script_size < E.min_coinbase_size) || decide (script_size > E.max_coinbase_size)
    | none => false

/-- The member `transaction::is_null_non_coinbase`. -/
def transaction.is_null_non_coinbase (self : transaction) : Bool :=
  if self.is_coinbase then false
  else self.inputs_.any (fun i => i.previous_output.is_null)

/-- The private member `transaction::all_inputs_final`. -/
def transaction.all_inputs_final (E : externals) (self : transaction) : Bool :=
  self.inputs_.all (fun i => E.input_is_final i)

/-- Modelled from the spec: `safe_unsigned<uint32_t>` of limits.hpp (not under
src/), the checked narrowing of a `size_t`: the value when it fits in 32 bits;
`none` stands for the `std::range_error` it throws otherwise. -/
def safe_unsigned_uint32 (value : Nat) : Option Nat :=
  if value > max_uint32 then none else some value

/-- The member `transaction::is_final`; `none` when the narrowing of the height
throws.  The lambda `max_locktime` is only called when `locktime_` is not zero. -/
def transaction.is_final (E : externals) (self : transaction) (block_height block_time : Nat) :
    Option Bool :=
  if self.locktime_ = 0 then some true
  else
    let max_locktime : Option Nat :=
      if self.locktime_ < E.locktime_threshold then safe_unsigned_uint32 block_height
      else some block_time
    match max_locktime with
    | none => none
    | some bound => some (decide (self.locktime_ < bound) || self.all_inputs_final E)

/-- The member `transaction::is_locked`. -/
def transaction.is_locked (E : externals) (self : transaction)
    (block_height median_time_past : Nat) : Bool :=
  if decide (self.version_ < E.relative_locktime_min_version) || self.is_coinbase then false
  else self.inputs_.any (fun i => E.input_is_locked i block_height median_time_past)

/-- The member `transaction::is_locktime_conflict`. -/
def transaction.is_locktime_conflict (E : externals) (self : transaction) : Bool :=
  decide (self.locktime_ ≠ 0) && self.all_inputs_final E

/-- Modelled from the spec: `ceiling_add` of limits.hpp (not under src/) at an
unsigned type whose largest value is `ceiling`: the sum, or `ceiling` when the
sum would overflow. -/
def ceiling_add (ceiling left right : Nat) : Nat :=
  if left > ceiling - right then ceiling else left + right

/-- Modelled from the spec: `floor_subtract` of limits.hpp (not under src/): the
difference, or zero when it would underflow. -/
def floor_subtract (left right : Nat) : Nat :=
  if right ≥ left then 0 else left - right

/-- The member `transaction::total_input_value`. -/
def transaction.total_input_value (self : transaction) : Nat :=
  let sum := fun (total : Nat) (i : input) =>
    let prevout := i.previous_output.validation
    let missing := !prevout.cache_is_valid
    ceiling_add max_uint64 total (if missing then 0 else prevout.cache_value)
  self.inputs_.foldl sum 0

/-- The member `transaction::total_output_value`. -/
def transaction.total_output_value (self : transaction) : Nat :=
  let sum := fun (total : Nat) (o : output) => ceiling_add max_uint64 total o.value
  self.outputs_.foldl sum 0

/-- The member `transaction::fees`. -/
def transaction.fees (self : transaction) : Nat :=
  floor_subtract self.total_input_value self.total_output_value

/-- The member `transaction::is_overspent`. -/
def transaction.is_overspent (self : transaction) : Bool :=
  !self.is_coinbase && decide (self.total_output_value > self.total_input_value)

/-- The member `transaction::signature_operations(bool bip16_active)`: two
saturating accumulations joined by a plain `size_t` addition. -/
def transaction.signature_operations (E : externals) (self : transaction)
    (bip16_active : Bool) : Nat :=
  let ins := fun (total : Nat) (i : input) =>
    ceiling_add max_size_t total (E.input_signature_operations i bip16_active)
  let outs := fun (total : Nat) (o : output) =>
    ceiling_add max_size_t total (E.output_signature_operations o)
  size_add (self.inputs_.foldl ins 0) (self.outputs_.foldl outs 0)

/-- The member `transaction::is_missing_previous_outputs`. -/
def transaction.is_missing_previous_outputs (self : transaction) : Bool :=
  self.inputs_.any (fun i =>
    let prevout := i.previous_output
    let coinbase := prevout.is_null
    let missing := !prevout.validation.cache_is_valid
    missing && !coinbase)

/-- The member `transaction::previous_outputs`. -/
def transaction.previous_outputs (self : transaction) : List point :=
  self.inputs_.map (fun i => i.previous_output.to_point)

/-- The member `transaction::missing_previous_outputs`. -/
def transaction.missing_previous_outputs (self : transaction) : List point :=
  self.inputs_.foldl (fun prevouts i =>
    let prevout := i.previous_output
    let missing := !prevout.validation.cache_is_valid
    if missing && !prevout.is_null then prevouts ++ [prevout.to_point] else prevouts) []

/-- The range that `std::unique` retains: each run of equal adjacent elements
collapsed to one. -/
def unique : List point → List point
  | [] => []
  | [a] => [a]
  | a :: b :: rest => if a = b then unique (b :: rest) else a :: unique (b :: rest)

/-- The member `transaction::is_internal_double_spend`: `std::sort` by the point
order, `std::unique`, and the comparison of the new end with the old one. -/
def transaction.is_internal_double_spend (self : transaction) : Bool :=
  let prevouts := self.previous_outputs.insertionSort point.le
  let distinct_end := (unique prevouts).length
  let distinct := distinct_end == prevouts.length
  !distinct

/-- The member `transaction::is_double_spend`. -/
def transaction.is_double_spend (self : transaction) (include_unconfirmed : Bool) : Bool :=
  self.inputs_.any (fun i =>
    let prevout := i.previous_output.validation
    prevout.spent && (include_unconfirmed || prevout.confirmed))

/-- The member `transaction::is_mature`. -/
def transaction.is_mature (E : externals) (self : transaction) (height : Nat) : Bool :=
  self.inputs_.all (fun i => E.point_is_mature i.previous_output height)

/-- The member `transaction::connect_input`. -/
def transaction.connect_input (E : externals) (self : transaction) (state : chain_state)
    (input_index : Nat) : code :=
  if input_index ≥ self.inputs_.length then code.operation_failed
  else if self.is_coinbase then code.success
  else
    match self.inputs_.get? input_index with
    | none => code.operation_failed
    | some i =>
      let prevout := i.previous_output.validation
      if !prevout.cache_is_valid then code.missing_previous_output
      else
        let forks := state.enabled_forks
        let index32 := input_index % 2 ^ 32
        E.script_verify self index32 forks

/-! ## Validation -/

/-- The member `transaction::check`. -/
def transaction.check (E : externals) (self : transaction) (transaction_pool : Bool) : code :=
  if self.inputs_.isEmpty || self.outputs_.isEmpty then code.empty_transaction
  else if self.is_null_non_coinbase then code.previous_output_null
  else if self.total_output_value > E.max_money then code.spend_overflow
  else if !transaction_pool && self.is_oversized_coinbase E then
    code.invalid_coinbase_script_size
  else if transaction_pool && self.is_coinbase then code.coinbase_transaction
  else if transaction_pool && self.is_internal_double_spend then
    code.transaction_internal_double_spend
  else if transaction_pool && decide (self.serialized_size E true ≥ E.max_block_size) then
    code.transaction_size_limit
  else code.success

/-- The member `transaction::accept`; `none` when `is_final` throws. -/
def transaction.accept (E : externals) (self : transaction) (state : chain_state)
    (transaction_pool tx_duplicate : Bool) : Option code :=
  let bip16 := state.is_enabled rule_fork.bip16_rule
  let bip30 := state.is_enabled rule_fork.bip30_rule
  let bip68 := state.is_enabled rule_fork.bip68_rule
  let duplicates := state.is_enabled rule_fork.allow_collisions && !transaction_pool
  if transaction_pool && state.is_under_checkpoint then some code.premature_validation
  else
    let final : Option Bool :=
      if transaction_pool then self.is_final E state.height state.median_time_past
      else some true
    match final with
    | none => none
    | some is_final =>
      if transaction_pool && !is_final then some code.transaction_non_final
      else if !duplicates && bip30 && tx_duplicate then some code.unspent_duplicate
      else if self.is_missing_previous_outputs then some code.missing_previous_output
      else if self.is_double_spend transaction_pool then some code.double_spend
      else if !self.is_mature E state.height then some code.coinbase_maturity
      else if self.is_overspent then some code.spend_exceeds_value
      else if bip68 && self.is_locked E state.height state.median_time_past then
        some code.sequence_locked
      else if transaction_pool &&
          decide (self.signature_operations E bip16 > E.max_block_sigops) then
        some code.transaction_embedded_sigop_limit
      else some code.success

/-- The loop of `transaction::connect` from index `input` with `fuel` indices
left below `inputs_.size()`. -/
def transaction.connect_from (E : externals) (self : transaction) (state : chain_state) :
    Nat → Nat → code
  | 0, _ => code.success
  | fuel + 1, input =>
    let ec := self.connect_input E state input
    if ec.to_bool then ec else transaction.connect_from E self state fuel (input + 1)

/-- The member `transaction::connect`. -/
def transaction.connect (E : externals) (self : transaction) (state : chain_state) : code :=
  self.connect_from E state self.inputs_.length 0

/-! ## Contracts of the element codecs -/

/-- The element contract of the round trip: on a valid reader positioned at the
encoding of `p`, `from_data` (called on a value-initialised element) returns
true, consumes exactly that encoding, and yields an element equal to `p` under
the element's `operator==`. -/
def put_round_trips {Put : Type} (init : Put)
    (from_data : Put → reader → Bool → Bool × Put × reader)
    (to_data : Put → Bool → data_chunk) (eq : Put → Put → Bool)
    (wire : Bool) (p : Put) : Prop :=
  ∀ tail : data_chunk, ∃ q : Put,
    from_data init ⟨to_data p wire ++ tail, true⟩ wire = (true, q, ⟨tail, true⟩) ∧ eq q p = true

/-- The bytes that the `std::for_each` of `write` appends: the encodings of the
elements, in sequence order. -/
def put_bytes {Put : Type} (to_data : Put → Bool → data_chunk) (wire : Bool) :
    List Put → data_chunk
  | [] => []
  | p :: ps => to_data p wire ++ put_bytes to_data wire ps

/-! ## A reference instance of the externals

The element layouts are those of the external-interfaces section of the
specification; the instance serves to exhibit the theorems on concrete
transactions. -/

/-- Modelled from the spec: `reader::read_bytes`, a read of `n` raw bytes. -/
def reader.read_bytes : Nat → reader → data_chunk × reader
  | 0, s => ([], s)
  | n + 1, s =>
    let r := s.read_byte
    let t := reader.read_bytes n r.2
    (r.1 :: t.1, t.2)

/-- Modelled from the spec: a value-initialised input. -/
def reference_input_default : input := ⟨⟨0, 0, ⟨none, false, false⟩⟩, [], 0⟩

/-- Modelled from the spec: a value-initialised output. -/
def reference_output_default : output := ⟨0, []⟩

/-- Modelled from the spec: the layout of an input: previous output (32-byte hash
and 4-byte index), length-prefixed script, 4-byte sequence. -/
def reference_input_to_data (i : input) (_wire : Bool) : data_chunk :=
  to_little_endian 32 i.previous_output.hash ++ (to_little_endian 4 i.previous_output.index
    ++ (write_variable_little_endian i.script.length ++ (i.script
    ++ to_little_endian 4 i.sequence)))

/-- Modelled from the spec: the reading counterpart of `reference_input_to_data`;
on failure the input is reset. -/
def reference_input_from_data (_self : input) (source : reader) (_wire : Bool) :
    Bool × input × reader :=
  let hash := source.read_little_endian 32
  let index := hash.2.read_little_endian 4
  let size := index.2.read_size_little_endian
  let script := size.2.read_bytes size.1
  let sequence := script.2.read_little_endian 4
  if sequence.2.valid then
    (true, ⟨⟨hash.1, index.1, ⟨none, false, false⟩⟩, script.1, sequence.1⟩, sequence.2)
  else (false, reference_input_default, sequence.2)

/-- Modelled from the spec: the layout of an output: 8-byte value,
length-prefixed script. -/
def reference_output_to_data (o : output) (_wire : Bool) : data_chunk :=
  to_little_endian 8 o.value ++ (write_variable_little_endian o.script.length ++ o.script)

/-- Modelled from the spec: the reading counterpart of
`reference_output_to_data`; on failure the output is reset. -/
def reference_output_from_data (_self : output) (source : reader) (_wire : Bool) :
    Bool × output × reader :=
  let value := source.read_little_endian 8
  let size := value.2.read_size_little_endian
  let script := size.2.read_bytes size.1
  if script.2.valid then (true, ⟨value.1, script.1⟩, script.2)
  else (false, reference_output_default, script.2)

/-- A reference instance of the externals with the constants of the Bitcoin main
network, the element layouts above, trivial script collaborators and a stand-in
for the hash primitive. -/
def reference_externals : externals where
  max_block_size := 1000000
  max_block_sigops := 20000
  max_money := 2100000000000000
  min_coinbase_size := 2
  max_coinbase_size := 100
  locktime_threshold := 500000000
  relative_locktime_min_version := 2
  input_default := reference_input_default
  input_from_data := reference_input_from_data
  input_to_data := reference_input_to_data
  input_serialized_size := fun i wire => (reference_input_to_data i wire).length
  input_is_final := fun i => i.sequence == max_uint32
  input_is_locked := fun _ _ _ => false
  input_signature_operations := fun _ _ => 0
  output_default := reference_output_default
  output_from_data := reference_output_from_data
  output_to_data := reference_output_to_data
  output_serialized_size := fun o wire => (reference_output_to_data o wire).length
  output_signature_operations := fun _ => 0
  point_is_mature := fun _ _ => true
  script_serialized_size := fun script _ => script.length
  script_verify := fun _ _ _ => code.success
  bitcoin_hash := fun data => data.foldl (fun h b => (h * 257 + b + 1) % 2 ^ 256) 0

/-- Well-formedness of an input as a value of its C++ type. -/
def input.well_formed (i : input) : Prop :=
  i.previous_output.hash < 2 ^ 256 ∧ i.previous_output.index ≤ max_uint32
    ∧ i.script.length ≤ max_size_t ∧ (∀ b ∈ i.script, b < 256) ∧ i.sequence ≤ max_uint32

/-- Well-formedness of an output as a value of its C++ type. -/
def output.well_formed (o : output) : Prop :=
  o.value ≤ max_uint64 ∧ o.script.length ≤ max_size_t ∧ (∀ b ∈ o.script, b < 256)

/-- A sample transaction: one input, two outputs. -/
def sample_transaction : transaction :=
  ⟨1, 0, [⟨⟨7, 1, ⟨none, false, false⟩⟩, [1, 2, 3], 4294967295⟩],
    [⟨5000, [118, 169]⟩, ⟨70000, []⟩]⟩

/-! ## Decision lists of the validation stages, as the specification words them -/

/-- The outcome of an ordered decision list: the error of the first rule whose
condition holds, success when none holds. -/
def first_firing (rules : List (Bool × code)) : code :=
  match rules.find? (fun rule => rule.1) with
  | some rule => rule.2
  | none => code.success

/-- The seven rules of `check`, in the order of the specification. -/
def check_rules (E : externals) (T : transaction) (pool : Bool) : List (Bool × code) :=
  [ (T.inputs_.isEmpty || T.outputs_.isEmpty, code.empty_transaction),
    (T.is_null_non_coinbase, code.previous_output_null),
    (decide (T.total_output_value > E.max_money), code.spend_overflow),
    (!pool && T.is_oversized_coinbase E, code.invalid_coinbase_script_size),
    (pool && T.is_coinbase, code.coinbase_transaction),
    (pool && T.is_internal_double_spend, code.transaction_internal_double_spend),
    (pool && decide (T.serialized_size E true ≥ E.max_block_size),
      code.transaction_size_limit) ]

/-- The nine rules of `accept`, in the order of the specification; `final` is the
value that `is_final(height, median_time_past)` returns. -/
def accept_rules (E : externals) (T : transaction) (state : chain_state)
    (pool tx_duplicate final : Bool) : List (Bool × code) :=
  [ (pool && state.is_under_checkpoint, code.premature_validation),
    (pool && !final, code.transaction_non_final),
    (!(state.is_enabled rule_fork.allow_collisions && !pool)
        && state.is_enabled rule_fork.bip30_rule && tx_duplicate, code.unspent_duplicate),
    (T.is_missing_previous_outputs, code.missing_previous_output),
    (T.is_double_spend pool, code.double_spend),
    (!T.is_mature E state.height, code.coinbase_maturity),
    (T.is_overspent, code.spend_exceeds_value),
    (state.is_enabled rule_fork.bip68_rule
        && T.is_locked E state.height state.median_time_past, code.sequence_locked),
    (pool && decide (T.signature_operations E (state.is_enabled rule_fork.bip16_rule)
        > E.max_block_sigops), code.transaction_embedded_sigop_limit) ]

/-- A chain state at height 2^32 with no fork enabled and no checkpoint above. -/
def tall_chain_state : chain_state := ⟨4294967296, 1500000000, 0, fun _ => false, false⟩

/-- A chain state at height 600000 with no fork enabled and no checkpoint above. -/
def sample_chain_state : chain_state := ⟨600000, 1500000000, 0, fun _ => false, false⟩

/-- The sample transaction with a cached previous output and locktime 1. -/
def sample_locktime_transaction : transaction :=
  ⟨1, 1, [⟨⟨7, 1, ⟨some ⟨80000, []⟩, false, false⟩⟩, [1, 2, 3], 0⟩],
    [⟨5000, [118, 169]⟩, ⟨70000, []⟩]⟩

/-- Two inputs at distinct positions reference the identical previous-output
point. -/
def transaction.spends_point_twice (T : transaction) : Prop :=
  ∃ i j : Nat, i < j ∧ j < T.previous_outputs.length
    ∧ T.previous_outputs.get? i = T.previous_outputs.get? j

/-- Two inputs referencing the same point, and no output. -/
def double_spend_no_output_transaction : transaction :=
  ⟨1, 0, [⟨⟨7, 1, ⟨none, false, false⟩⟩, [], 0⟩, ⟨⟨7, 1, ⟨none, false, false⟩⟩, [], 0⟩], []⟩

/-- Two inputs referencing the same point, and one output. -/
def double_spend_transaction : transaction :=
  ⟨1, 0, [⟨⟨7, 1, ⟨none, false, false⟩⟩, [], 0⟩, ⟨⟨7, 1, ⟨none, false, false⟩⟩, [], 0⟩],
    [⟨5000, []⟩]⟩

/-- No input, and two outputs of 2^63 each, whose exact sum is 2^64. -/
def overflow_no_input_transaction : transaction :=
  ⟨1, 0, [], [⟨9223372036854775808, []⟩, ⟨9223372036854775808, []⟩]⟩

/-- One input, and two outputs of 2^63 each, whose exact sum is 2^64. -/
def overflow_transaction : transaction :=
  ⟨1, 0, [⟨⟨7, 1, ⟨none, false, false⟩⟩, [], 0⟩],
    [⟨9223372036854775808, []⟩, ⟨9223372036854775808, []⟩]⟩

/-- No output (one input). -/
def no_output_transaction : transaction :=
  ⟨1, 0, [⟨⟨7, 1, ⟨none, false, false⟩⟩, [], 0⟩], []⟩

/-- Locktime 1, and a single input that carries the final sequence. -/
def final_input_locktime_transaction : transaction :=
  ⟨1, 1, [⟨⟨7, 1, ⟨none, false, false⟩⟩, [], 4294967295⟩], [⟨5000, []⟩]⟩

/-- Locktime 500000 and no input. -/
def locktime_no_input_transaction : transaction :=
  ⟨1, 500000, [], [⟨5000, []⟩]⟩

/-- Locktime 500000, and a single input that does not carry the final
sequence. -/
def locktime_transaction : transaction :=
  ⟨1, 500000, [⟨⟨7, 1, ⟨none, false, false⟩⟩, [], 0⟩], [⟨5000, []⟩]⟩

/-- The reference instance in which every referenced previous output is a
coinbase output of the block at height 0, mature from height 100 on. -/
def coinbase_spending_externals : externals :=
  { reference_externals with point_is_mature := fun _ height => decide (100 ≤ height) }

/-- A chain state at height 50 with no fork enabled and no checkpoint above. -/
def young_chain_state : chain_state := ⟨50, 1500000000, 0, fun _ => false, false⟩

/-- A chain state at height 5000000000 with no fork enabled and no checkpoint
above. -/
def far_chain_state : chain_state := ⟨5000000000, 1500000000, 0, fun _ => false, false⟩

/-- One input whose cached previous output is already spent by a confirmed
transaction. -/
def spent_prevout_transaction : transaction :=
  ⟨1, 0, [⟨⟨7, 1, ⟨some ⟨80000, []⟩, true, true⟩⟩, [], 0⟩], [⟨5000, []⟩]⟩

/-- One input whose previous output is cached and unspent. -/
def cached_prevout_transaction : transaction :=
  ⟨1, 0, [⟨⟨7, 1, ⟨some ⟨80000, []⟩, false, false⟩⟩, [], 0⟩], [⟨5000, []⟩]⟩

/-- The reference instance with a script collaborator that reports 2^63 signature
operations for every input and for every output. -/
def heavy_sigops_externals : externals :=
  { reference_externals with
    input_signature_operations := fun _ _ => 9223372036854775808
    output_signature_operations := fun _ => 9223372036854775808 }

/-- No input, and one output whose script is `k` zero bytes. -/
def script_length_transaction (k : Nat) : transaction :=
  ⟨1, 0, [], [⟨0, List.replicate k 0⟩]⟩

set_option linter.dupNamespace false in
/-- The default constructor `transaction::transaction()`. -/
def transaction.transaction : transaction := ⟨0, 0, [], []⟩

/-- Two inputs: the first with a cached previous output of 80000, the second with
a missing cache entry. -/
def partly_cached_transaction : transaction :=
  ⟨1, 0, [⟨⟨7, 1, ⟨some ⟨80000, []⟩, false, false⟩⟩, [], 0⟩,
      ⟨⟨8, 0, ⟨none, false, false⟩⟩, [], 0⟩],
    [⟨5000, []⟩]⟩

/-- A chain state at height 600000 with every fork enabled, the allowance of
collisions included, and no checkpoint above. -/
def forked_chain_state : chain_state := ⟨600000, 1500000000, 0, fun _ => true, false⟩

/-- Two inputs, the second of which references the null point with no cached
previous output: not a coinbase (two inputs), and no previous output counted as
missing. -/
def null_input_transaction : transaction :=
  ⟨1, 0, [⟨⟨7, 1, ⟨some ⟨80000, []⟩, false, false⟩⟩, [], 0⟩,
      ⟨⟨0, 4294967295, ⟨none, false, false⟩⟩, [], 0⟩],
    [⟨5000, []⟩]⟩

/-- The raw transaction of the test case `test_get_keoken_output_empty` of
test_new/main.cpp (wire layout, one input, two outputs). -/
def test_raw_transaction : data_chunk :=
  [1, 0, 0, 0, 1, 240, 142, 68, 169, 107, 251, 90, 230, 62, 218, 26, 102, 32, 173, 174, 55,
    238, 55, 238, 71, 119, 251, 3, 54, 225, 187, 188, 77, 230, 83, 16, 252, 1, 0, 0, 0, 106,
    71, 48, 68, 2, 32, 80, 216, 54, 140, 172, 249, 191, 27, 143, 177, 247, 207, 217, 175, 246,
    50, 148, 120, 158, 177, 118, 1, 57, 231, 239, 65, 240, 131, 114, 109, 173, 196, 2, 32,
    103, 121, 99, 84, 171, 168, 242, 224, 35, 99, 197, 229, 16, 170, 126, 40, 48, 177, 21, 71,
    47, 179, 29, 230, 125, 22, 151, 40, 103, 241, 57, 69, 1, 33, 3, 229, 137, 72, 11, 47, 116,
    99, 129, 252, 160, 26, 155, 18, 197, 23, 183, 164, 130, 162, 3, 200, 178, 116, 41, 133,
    218, 10, 199, 44, 192, 120, 242, 255, 255, 255, 255, 2, 240, 201, 196, 103, 0, 0, 0, 0,
    25, 118, 169, 20, 217, 215, 142, 38, 223, 78, 70, 1, 207, 155, 38, 208, 156, 123, 40, 14,
    231, 100, 70, 159, 136, 172, 128, 196, 96, 15, 0, 0, 0, 0, 25, 118, 169, 20, 30, 227, 36,
    18, 2, 10, 50, 75, 147, 177, 161, 172, 253, 255, 246, 171, 156, 168, 250, 194, 136, 172,
    0, 0, 0, 0]

/-- The reader as the store branch of `from_data` leaves it after the outputs and
the inputs, where the variable-length locktime is read. -/
def store_locktime_reader (E : externals) (source : reader) : reader :=
  let outs := read E E.output_default E.output_from_data source [] false
  let ins :=
    if outs.1 then read E E.input_default E.input_from_data outs.2.1 [] false
    else (false, outs.2.1, [])
  ins.2.1

/-- The variable-length locktime as the store branch of `from_data` reads it, and
the reader after it. -/
def store_locktime (E : externals) (source : reader) : Nat × reader :=
  (store_locktime_reader E source).read_variable_little_endian

/-- The variable-length version as the store branch of `from_data` reads it, and
the reader after it. -/
def store_version (E : externals) (source : reader) : Nat × reader :=
  (store_locktime E source).2.read_variable_little_endian

/-! ## The transaction class of the test cases -/

/-- Modelled from the spec: `libbitcoin::chain::transaction::from_data(data)`, the
member that the test cases of test_new/main.cpp call on a default-constructed
transaction (chain/transaction.hpp and chain/transaction.cpp are not under
src/). Deserialization in the wire layout: 4-byte little-endian version,
length-prefixed inputs, length-prefixed outputs, 4-byte little-endian locktime,
each sequence read under the count guard; a failure marks the reader invalid, and
on any invalidity the transaction is reset to the canonical empty state before
failure is returned. -/
def chain_transaction_from_data (E : externals) (data : data_chunk) : Bool × transaction :=
  let version := (reader.of_data data).read_4_bytes_little_endian
  let ins := read E E.input_default E.input_from_data version.2 [] true
  let outs := read E E.output_default E.output_from_data ins.2.1 [] true
  let locktime := outs.2.1.read_4_bytes_little_endian
  if locktime.2.valid then (true, ⟨version.1, locktime.1, ins.2.2, outs.2.2⟩)
  else (false, ⟨0, 0, [], []⟩)

/-- Modelled from the spec: `libbitcoin::chain::transaction::is_valid()` of the same
class (not under src/): false only when all four fields are at
their defaults, both sequences being empty. -/
def chain_transaction_is_valid (tx : transaction) : Bool :=
  !(decide (tx.version_ = 0) && decide (tx.locktime_ = 0) && tx.inputs_.isEmpty
    && tx.outputs_.isEmpty)

/-! ## Properties of the writer and the reader -/

theorem to_little_endian_length (n v : Nat) : (to_little_endian n v).length = n := by
  induction n generalizing v with
  | zero => rfl
  | succ n ih => simp [to_little_endian, ih]

theorem read_byte_cons (b : Nat) (rest : data_chunk) :
    reader.read_byte ⟨b :: rest, true⟩ = (b % 256, ⟨rest, true⟩) := by
  simp [reader.read_byte]

theorem read_little_endian_to_little_endian (n v : Nat) (tail : data_chunk) :
    reader.read_little_endian n ⟨to_little_endian n v ++ tail, true⟩
      = (v % 256 ^ n, ⟨tail, true⟩) := by
  induction n generalizing v with
  | zero => simp [reader.read_little_endian, to_little_endian, Nat.mod_one]
  | succ n ih =>
    simp only [to_little_endian, List.cons_append, reader.read_little_endian, read_byte_cons, ih]
    rw [pow_succ', Nat.mod_mul, Nat.mod_mod]

theorem write_variable_little_endian_length (v : Nat) :
    (write_variable_little_endian v).length = variable_uint_size v := by
  unfold write_variable_little_endian variable_uint_size
  split_ifs <;> simp [to_little_endian_length]

theorem read_variable_write_variable (v : Nat) (hv : v ≤ max_uint64) (tail : data_chunk) :
    reader.read_variable_little_endian ⟨write_variable_little_endian v ++ tail, true⟩
      = (v, ⟨tail, true⟩) := by
  unfold max_uint64 at hv
  unfold write_variable_little_endian reader.read_variable_little_endian
  split_ifs with h1 h2 h3
  · have h : v % 256 = v := Nat.mod_eq_of_lt (by omega)
    simp only [List.cons_append, List.nil_append, read_byte_cons, h]
    rw [if_neg (by omega), if_neg (by omega), if_neg (by omega)]
  · simp only [List.cons_append, read_byte_cons, read_little_endian_to_little_endian]
    norm_num
    omega
  · simp only [List.cons_append, read_byte_cons, read_little_endian_to_little_endian]
    norm_num
    omega
  · simp only [List.cons_append, read_byte_cons, read_little_endian_to_little_endian]
    norm_num
    omega

theorem read_size_write_variable (v : Nat) (hv : v ≤ max_size_t) (tail : data_chunk) :
    reader.read_size_little_endian ⟨write_variable_little_endian v ++ tail, true⟩
      = (v, ⟨tail, true⟩) := by
  unfold reader.read_size_little_endian
  rw [read_variable_write_variable v hv tail]
  simp [hv]

/-! ## Round trip of the sequence codec -/

theorem foldl_append_put_bytes {Put : Type} (to_data : Put → Bool → data_chunk) (wire : Bool)
    (puts : List Put) (sink : data_chunk) :
    puts.foldl (fun sink put => sink ++ to_data put wire) sink
      = sink ++ put_bytes to_data wire puts := by
  induction puts generalizing sink with
  | nil => simp [put_bytes]
  | cons p ps ih => simp [put_bytes, ih, List.append_assoc]

theorem write_eq {Put : Type} (to_data : Put → Bool → data_chunk) (wire : Bool)
    (puts : List Put) (sink : data_chunk) :
    write to_data sink puts wire
      = sink ++ (write_variable_little_endian puts.length ++ put_bytes to_data wire puts) := by
  simp [write, foldl_append_put_bytes, List.append_assoc]

theorem deserialize_each_put_bytes {Put : Type} (init : Put)
    (from_data : Put → reader → Bool → Bool × Put × reader)
    (to_data : Put → Bool → data_chunk) (eq : Put → Put → Bool) (wire : Bool)
    (puts : List Put)
    (h : ∀ p ∈ puts, put_round_trips init from_data to_data eq wire p)
    (tail : data_chunk) :
    ∃ qs : List Put,
      deserialize_each from_data wire true ⟨put_bytes to_data wire puts ++ tail, true⟩
        (List.replicate puts.length init) = (true, ⟨tail, true⟩, qs)
      ∧ vector_eq eq qs puts = true := by
  induction puts with
  | nil => exact ⟨[], by simp [deserialize_each, put_bytes], rfl⟩
  | cons p ps ih =>
    obtain ⟨q, hq, hqe⟩ := h p (List.mem_cons_self p ps) (put_bytes to_data wire ps ++ tail)
    obtain ⟨qs, hqs, hqse⟩ := ih (fun x hx => h x (List.mem_cons_of_mem p hx))
    refine ⟨q :: qs, ?_, ?_⟩
    · simp only [List.length_cons, List.replicate_succ, deserialize_each, put_bytes,
        List.append_assoc, hq, if_true, hqs]
    · simp [vector_eq, hqe, hqse]

theorem read_write_round_trip {Put : Type} (E : externals) (init : Put)
    (from_data : Put → reader → Bool → Bool × Put × reader)
    (to_data : Put → Bool → data_chunk) (eq : Put → Put → Bool) (wire : Bool)
    (puts : List Put)
    (hbound : E.max_block_size ≤ max_size_t)
    (hcount : puts.length ≤ E.max_block_size)
    (h : ∀ p ∈ puts, put_round_trips init from_data to_data eq wire p)
    (tail : data_chunk) :
    ∃ qs : List Put,
      read E init from_data
        ⟨write_variable_little_endian puts.length ++ put_bytes to_data wire puts ++ tail, true⟩
        [] wire = (true, ⟨tail, true⟩, qs)
      ∧ vector_eq eq qs puts = true := by
  obtain ⟨qs, hqs, hqse⟩ := deserialize_each_put_bytes init from_data to_data eq wire puts h tail
  refine ⟨qs, ?_, hqse⟩
  unfold read
  rw [List.append_assoc, read_size_write_variable puts.length (le_trans hcount hbound)]
  simp only [if_neg (Nat.not_lt.mpr hcount), resize, List.take_nil, List.length_nil,
    Nat.sub_zero, List.nil_append]
  exact hqs

/-! ## Round trip of the reference element layouts -/

theorem read_bytes_append (bs tail : data_chunk) (h : ∀ b ∈ bs, b < 256) :
    reader.read_bytes bs.length ⟨bs ++ tail, true⟩ = (bs, ⟨tail, true⟩) := by
  induction bs with
  | nil => simp [reader.read_bytes]
  | cons b bs ih =>
    have hb : b % 256 = b := Nat.mod_eq_of_lt (h b (List.mem_cons_self b bs))
    simp only [List.length_cons, List.cons_append, reader.read_bytes, read_byte_cons, hb,
      ih (fun x hx => h x (List.mem_cons_of_mem b hx))]

theorem reference_input_round_trips (wire : Bool) (i : input) (h : i.well_formed) :
    put_round_trips reference_input_default reference_input_from_data
      reference_input_to_data input.eq wire i := by
  obtain ⟨hh, hi, hl, hb, hs⟩ := h
  intro tail
  have h32 : i.previous_output.hash % 256 ^ 32 = i.previous_output.hash :=
    Nat.mod_eq_of_lt (by norm_num at hh ⊢; omega)
  have h4 : i.previous_output.index % 256 ^ 4 = i.previous_output.index :=
    Nat.mod_eq_of_lt (by unfold max_uint32 at hi; norm_num; omega)
  have hs4 : i.sequence % 256 ^ 4 = i.sequence :=
    Nat.mod_eq_of_lt (by unfold max_uint32 at hs; norm_num; omega)
  refine ⟨⟨⟨i.previous_output.hash, i.previous_output.index, ⟨none, false, false⟩⟩,
    i.script, i.sequence⟩, ?_, ?_⟩
  · unfold reference_input_from_data reference_input_to_data
    rw [List.append_assoc, read_little_endian_to_little_endian]
    dsimp only
    rw [List.append_assoc, read_little_endian_to_little_endian]
    dsimp only
    rw [List.append_assoc, read_size_write_variable _ hl]
    dsimp only
    rw [List.append_assoc, read_bytes_append _ _ hb]
    dsimp only
    rw [read_little_endian_to_little_endian, h32, h4, hs4]
    rfl
  · simp [input.eq, output_point.to_point]

theorem reference_output_round_trips (wire : Bool) (o : output) (h : o.well_formed) :
    put_round_trips reference_output_default reference_output_from_data
      reference_output_to_data output.eq wire o := by
  obtain ⟨hv, hl, hb⟩ := h
  intro tail
  have h8 : o.value % 256 ^ 8 = o.value :=
    Nat.mod_eq_of_lt (by unfold max_uint64 at hv; norm_num; omega)
  refine ⟨⟨o.value, o.script⟩, ?_, ?_⟩
  · unfold reference_output_from_data reference_output_to_data
    rw [List.append_assoc, read_little_endian_to_little_endian]
    dsimp only
    rw [List.append_assoc, read_size_write_variable _ hl]
    dsimp only
    rw [read_bytes_append _ _ hb, h8]
    rfl
  · simp [output.eq]

theorem sample_transaction_inputs_well_formed :
    ∀ i ∈ sample_transaction.inputs_, i.well_formed := by
  intro i hi
  simp only [sample_transaction, List.mem_singleton] at hi
  subst hi
  refine ⟨by norm_num, by decide, by decide, ?_, by decide⟩
  intro b hb
  simp at hb
  omega

theorem sample_transaction_outputs_well_formed :
    ∀ o ∈ sample_transaction.outputs_, o.well_formed := by
  intro o ho
  simp only [sample_transaction, List.mem_cons, List.mem_singleton, List.not_mem_nil,
    or_false] at ho
  rcases ho with rfl | rfl
  · refine ⟨by decide, by decide, ?_⟩
    intro b hb
    simp at hb
    omega
  · exact ⟨by decide, by decide, by simp⟩

/-! ## Round trip of the transaction -/

theorem read_4_bytes_of_write (v : Nat) (hv : v ≤ max_uint32) (tail : data_chunk) :
    reader.read_4_bytes_little_endian ⟨to_little_endian 4 v ++ tail, true⟩
      = (v, ⟨tail, true⟩) := by
  unfold max_uint32 at hv
  rw [reader.read_4_bytes_little_endian, read_little_endian_to_little_endian]
  have h : v % 256 ^ 4 = v := Nat.mod_eq_of_lt (by norm_num; omega)
  rw [h]

/-- C1. Round trip: for every transaction whose version and locktime are 32-bit
values, either layout flag and any prior state of the target, when each input
and output of the transaction is inverted by its own `from_data` and both counts
are within the max-block-size bound, `from_data(to_data(T, f), f)` returns true and
leaves a transaction equal to `T` under `operator==`. -/
theorem from_data_to_data_round_trip (E : externals) (T prior : transaction) (wire : Bool)
    (hversion : T.version_ ≤ max_uint32) (hlocktime : T.locktime_ ≤ max_uint32)
    (hbound : E.max_block_size ≤ max_size_t)
    (hins : T.inputs_.length ≤ E.max_block_size)
    (houts : T.outputs_.length ≤ E.max_block_size)
    (hin : ∀ i ∈ T.inputs_,
      put_round_trips E.input_default E.input_from_data E.input_to_data input.eq wire i)
    (hout : ∀ o ∈ T.outputs_,
      put_round_trips E.output_default E.output_from_data E.output_to_data output.eq wire o) :
    (prior.from_data_chunk E (T.to_data E wire) wire).1 = true ∧
      transaction.eq (prior.from_data_chunk E (T.to_data E wire) wire).2 T = true := by
  cases wire with
  | true =>
    obtain ⟨qo, hqo, hqoe⟩ := read_write_round_trip E E.output_default E.output_from_data
      E.output_to_data output.eq true T.outputs_ hbound houts hout
      (to_little_endian 4 T.locktime_ ++ [])
    obtain ⟨qi, hqi, hqie⟩ := read_write_round_trip E E.input_default E.input_from_data
      E.input_to_data input.eq true T.inputs_ hbound hins hin
      (write_variable_little_endian T.outputs_.length ++ put_bytes E.output_to_data true T.outputs_
        ++ (to_little_endian 4 T.locktime_ ++ []))
    have hdata : T.to_data E true = to_little_endian 4 T.version_ ++
        (write_variable_little_endian T.inputs_.length ++ put_bytes E.input_to_data true T.inputs_
          ++ (write_variable_little_endian T.outputs_.length
            ++ put_bytes E.output_to_data true T.outputs_
            ++ (to_little_endian 4 T.locktime_ ++ []))) := by
      simp [transaction.to_data, transaction.to_data_sink, write_eq,
        write_4_bytes_little_endian, List.append_assoc]
    simp only [transaction.from_data_chunk, transaction.from_data, reader.of_data, hdata,
      transaction.reset, read_4_bytes_of_write _ hversion, read_4_bytes_of_write _ hlocktime,
      hqi, hqo, if_true]
    simp [transaction.eq, hqie, hqoe]
  | false =>
    have hl64 : T.locktime_ ≤ max_uint64 := by unfold max_uint32 at hlocktime; unfold max_uint64; omega
    have hv64 : T.version_ ≤ max_uint64 := by unfold max_uint32 at hversion; unfold max_uint64; omega
    obtain ⟨qi, hqi, hqie⟩ := read_write_round_trip E E.input_default E.input_from_data
      E.input_to_data input.eq false T.inputs_ hbound hins hin
      (write_variable_little_endian T.locktime_ ++ (write_variable_little_endian T.version_ ++ []))
    obtain ⟨qo, hqo, hqoe⟩ := read_write_round_trip E E.output_default E.output_from_data
      E.output_to_data output.eq false T.outputs_ hbound houts hout
      (write_variable_little_endian T.inputs_.length ++ put_bytes E.input_to_data false T.inputs_
        ++ (write_variable_little_endian T.locktime_
          ++ (write_variable_little_endian T.version_ ++ [])))
    have hdata : T.to_data E false =
        write_variable_little_endian T.outputs_.length ++ put_bytes E.output_to_data false T.outputs_
          ++ (write_variable_little_endian T.inputs_.length
            ++ put_bytes E.input_to_data false T.inputs_
            ++ (write_variable_little_endian T.locktime_
              ++ (write_variable_little_endian T.version_ ++ []))) := by
      simp [transaction.to_data, transaction.to_data_sink, write_eq, List.append_assoc]
    have hv32 : T.version_ % 2 ^ 32 = T.version_ :=
      Nat.mod_eq_of_lt (by unfold max_uint32 at hversion; omega)
    have hl32 : T.locktime_ % 2 ^ 32 = T.locktime_ :=
      Nat.mod_eq_of_lt (by unfold max_uint32 at hlocktime; omega)
    simp only [transaction.from_data_chunk, transaction.from_data, reader.of_data, hdata,
      transaction.reset, read_variable_write_variable _ hl64, read_variable_write_variable _ hv64,
      hqi, hqo, if_true]
    have hg : ¬ (T.locktime_ > max_uint32 ∨ T.version_ > max_uint32) := by omega
    simp [transaction.eq, hqie, hqoe, hg, hv32, hl32]
    unfold max_uint32 at hversion hlocktime
    omega

/-- Instance of C1 on the sample transaction in the wire layout. -/
theorem from_data_to_data_round_trip_witness :
    ((transaction.mk 9 9 [] []).from_data_chunk reference_externals
        (sample_transaction.to_data reference_externals true) true).1 = true ∧
      transaction.eq ((transaction.mk 9 9 [] []).from_data_chunk reference_externals
        (sample_transaction.to_data reference_externals true) true).2 sample_transaction = true :=
  from_data_to_data_round_trip reference_externals sample_transaction (transaction.mk 9 9 [] [])
    true (by simp [sample_transaction, max_uint32]) (by simp [sample_transaction])
    (by simp [reference_externals, max_size_t]) (by simp [sample_transaction, reference_externals])
    (by simp [sample_transaction, reference_externals])
    (fun i hi => by
      simpa only [reference_externals] using
        reference_input_round_trips true i (sample_transaction_inputs_well_formed i hi))
    (fun o ho => by
      simpa only [reference_externals] using
        reference_output_round_trips true o (sample_transaction_outputs_well_formed o ho))

/-! ## Size consistency -/

theorem put_bytes_length_cons {Put : Type} (to_data : Put → Bool → data_chunk) (wire : Bool)
    (p : Put) (ps : List Put) :
    (put_bytes to_data wire (p :: ps)).length
      = (to_data p wire).length + (put_bytes to_data wire ps).length := by
  simp [put_bytes]

theorem foldl_size_add_eq {Put : Type} (to_data : Put → Bool → data_chunk)
    (size : Put → Bool → Nat) (wire : Bool) (puts : List Put) (start : Nat)
    (hsize : ∀ p ∈ puts, size p wire = (to_data p wire).length)
    (hfit : start + (put_bytes to_data wire puts).length ≤ max_size_t) :
    puts.foldl (fun total p => size_add total (size p wire)) start
      = start + (put_bytes to_data wire puts).length := by
  induction puts generalizing start with
  | nil => simp [put_bytes]
  | cons p ps ih =>
    rw [put_bytes_length_cons] at hfit ⊢
    have hp := hsize p (List.mem_cons_self p ps)
    have hstep : size_add start (size p wire) = start + (to_data p wire).length := by
      unfold size_add
      rw [hp]
      unfold max_size_t at hfit
      exact Nat.mod_eq_of_lt (by omega)
    rw [List.foldl_cons, hstep, ih _ (fun x hx => hsize x (List.mem_cons_of_mem p hx))
      (by omega)]
    omega

theorem to_data_length (E : externals) (T : transaction) (wire : Bool) :
    (T.to_data E wire).length
      = (if wire then 4 else variable_uint_size T.version_)
        + (if wire then 4 else variable_uint_size T.locktime_)
        + variable_uint_size T.inputs_.length
        + variable_uint_size T.outputs_.length
        + (put_bytes E.input_to_data wire T.inputs_).length
        + (put_bytes E.output_to_data wire T.outputs_).length := by
  cases wire
  · simp only [transaction.to_data, transaction.to_data_sink, write_eq, List.length_append,
      write_variable_little_endian_length, List.length_nil, Bool.false_eq_true, if_false]
    omega
  · simp only [transaction.to_data, transaction.to_data_sink, write_eq, List.length_append,
      write_variable_little_endian_length, write_4_bytes_little_endian,
      to_little_endian_length, List.length_nil, if_true]
    omega

/-- C2. Size consistency: for every transaction held in memory (its encoding
fits the address space) and either layout flag, when each input's and output's
`serialized_size` is the length of its own `to_data`, the number of bytes written
by `to_data` equals `serialized_size`, so the assertion in `to_data` holds. -/
theorem to_data_length_eq_serialized_size (E : externals) (T : transaction) (wire : Bool)
    (hin : ∀ i ∈ T.inputs_, E.input_serialized_size i wire = (E.input_to_data i wire).length)
    (hout : ∀ o ∈ T.outputs_,
      E.output_serialized_size o wire = (E.output_to_data o wire).length)
    (hfit : (T.to_data E wire).length ≤ max_size_t) :
    (T.to_data E wire).length = T.serialized_size E wire
      ∧ T.to_data_assertion E wire = true := by
  have hlen := to_data_length E T wire
  have key : (T.to_data E wire).length = T.serialized_size E wire := by
    rw [hlen] at hfit ⊢
    unfold transaction.serialized_size
    dsimp only
    rw [foldl_size_add_eq E.input_to_data E.input_serialized_size wire T.inputs_ 0 hin
        (by omega),
      foldl_size_add_eq E.output_to_data E.output_serialized_size wire T.outputs_ 0 hout
        (by omega)]
    unfold max_size_t at hfit
    simp only [size_add]
    omega
  exact ⟨key, by simp [transaction.to_data_assertion, key]⟩

/-- Instance of C2 on the sample transaction in the store layout. -/
theorem to_data_length_eq_serialized_size_witness :
    (sample_transaction.to_data reference_externals false).length
        = sample_transaction.serialized_size reference_externals false
      ∧ sample_transaction.to_data_assertion reference_externals false = true :=
  to_data_length_eq_serialized_size reference_externals sample_transaction false
    (fun _ _ => rfl) (fun _ _ => rfl) (by decide)

/-! ## Atomic failure of deserialization -/

/-- C3. Atomic failure: for every reader state (in particular a reader over any
byte string), every layout flag and every prior state of the transaction, if
`from_data` returns false then the transaction is exactly the reset state
(version 0, locktime 0, no inputs, no outputs) and `is_valid()` is false. -/
theorem from_data_failure_resets (E : externals) (prior : transaction) (source : reader)
    (wire : Bool) (h : (prior.from_data E source wire).1 = false) :
    (prior.from_data E source wire).2.1 = ⟨0, 0, [], []⟩
      ∧ (prior.from_data E source wire).2.1.is_valid = false := by
  unfold transaction.from_data at h ⊢
  dsimp only at h ⊢
  rw [h]
  simp [transaction.reset, transaction.is_valid]

/-- Instance of C3: the empty byte string, wire layout, a populated prior state. -/
theorem from_data_failure_resets_witness :
    (sample_transaction.from_data reference_externals (reader.of_data []) true).2.1
        = ⟨0, 0, [], []⟩
      ∧ (sample_transaction.from_data reference_externals (reader.of_data []) true).2.1.is_valid
        = false :=
  from_data_failure_resets reference_externals sample_transaction (reader.of_data []) true
    (by decide)

/-! ## Ordered decision lists -/

theorem first_firing_nil : first_firing [] = code.success := rfl

theorem first_firing_cons (c : Bool) (e : code) (rest : List (Bool × code)) :
    first_firing ((c, e) :: rest) = if c = true then e else first_firing rest := by
  cases c <;> simp [first_firing, List.find?]

theorem first_firing_eq_success_iff (rules : List (Bool × code))
    (h : ∀ rule ∈ rules, rule.2 ≠ code.success) :
    first_firing rules = code.success ↔ ∀ rule ∈ rules, rule.1 = false := by
  induction rules with
  | nil => simp [first_firing_nil]
  | cons r rs ih =>
    obtain ⟨c, e⟩ := r
    have he : e ≠ code.success := h (c, e) (List.mem_cons_self _ _)
    have ih2 := ih (fun x hx => h x (List.mem_cons_of_mem _ hx))
    rw [first_firing_cons]
    cases c with
    | true => simp [he]
    | false => simp [ih2]

/-! ## The context-free stage `check` -/

/-- C4. `check(pool)` is exactly the ordered decision list of its seven rules: it
returns the error of the first rule that fires, and success if and only if no
rule fires. -/
theorem check_eq_decision_list (E : externals) (T : transaction) (pool : Bool) :
    T.check E pool = first_firing (check_rules E T pool)
      ∧ (T.check E pool = code.success ↔ ∀ rule ∈ check_rules E T pool, rule.1 = false) := by
  have h1 : T.check E pool = first_firing (check_rules E T pool) := by
    simp only [transaction.check, check_rules, first_firing_cons, first_firing_nil,
      decide_eq_true_eq]
  refine ⟨h1, ?_⟩
  rw [h1]
  apply first_firing_eq_success_iff
  intro rule hrule
  simp only [check_rules, List.mem_cons, List.mem_singleton, List.not_mem_nil, or_false] at hrule
  rcases hrule with h | h | h | h | h | h | h <;> rw [h] <;> simp

/-! ## The contextual stage `accept` -/

theorem some_first_firing_cons (c : Bool) (e : code) (rest : List (Bool × code)) :
    some (first_firing ((c, e) :: rest))
      = if c = true then some e else some (first_firing rest) := by
  rw [first_firing_cons]
  split_ifs <;> rfl

/-- C5 as stated fails: in pool context, for a transaction with locktime 1 and a
chain state at height 2^32, the narrowing of the height inside `is_final` throws,
so `accept` returns no code at all, neither a rule's error nor success. -/
theorem accept_returns_no_code_counterexample :
    sample_locktime_transaction.is_final reference_externals tall_chain_state.height
        tall_chain_state.median_time_past = none
      ∧ sample_locktime_transaction.accept reference_externals tall_chain_state true false
        = none := by
  decide

/-- C5, amended. Whenever the call `is_final(height, median_time_past)` that
`accept` makes in pool context (past the checkpoint rule) returns a value `final`,
`accept` returns a code and is exactly the ordered decision list of its nine
rules: the error of the first rule that fires, and success if and only if no rule
fires. -/
theorem accept_eq_decision_list (E : externals) (T : transaction) (state : chain_state)
    (pool tx_duplicate final : Bool)
    (hfinal : pool = true → state.is_under_checkpoint = false →
      T.is_final E state.height state.median_time_past = some final) :
    T.accept E state pool tx_duplicate
        = some (first_firing (accept_rules E T state pool tx_duplicate final))
      ∧ (T.accept E state pool tx_duplicate = some code.success ↔
          ∀ rule ∈ accept_rules E T state pool tx_duplicate final, rule.1 = false) := by
  have h1 : T.accept E state pool tx_duplicate
      = some (first_firing (accept_rules E T state pool tx_duplicate final)) := by
    cases pool with
    | false =>
      simp only [transaction.accept, accept_rules, some_first_firing_cons, first_firing_nil,
        decide_eq_true_eq, Bool.false_and, Bool.false_eq_true, if_false]
    | true =>
      cases hc : state.is_under_checkpoint with
      | true =>
        simp [transaction.accept, accept_rules, first_firing_cons, hc]
      | false =>
        have hf := hfinal rfl hc
        simp only [transaction.accept, accept_rules, some_first_firing_cons, first_firing_nil,
          decide_eq_true_eq, hc, hf, Bool.and_false, Bool.false_eq_true, if_false,
          Bool.true_and, if_true]
  refine ⟨h1, ?_⟩
  rw [h1, Option.some_inj]
  apply first_firing_eq_success_iff
  intro rule hrule
  simp only [accept_rules, List.mem_cons, List.mem_singleton, List.not_mem_nil, or_false] at hrule
  rcases hrule with h | h | h | h | h | h | h | h | h <;> rw [h] <;> simp

/-- Instance of amended C5: the sample transaction with locktime 1 at height
600000 in pool context, where `is_final` returns true. -/
theorem accept_eq_decision_list_witness :
    sample_locktime_transaction.accept reference_externals sample_chain_state true false
        = some (first_firing (accept_rules reference_externals sample_locktime_transaction
            sample_chain_state true false true))
      ∧ (sample_locktime_transaction.accept reference_externals sample_chain_state true false
          = some code.success ↔
          ∀ rule ∈ accept_rules reference_externals sample_locktime_transaction
            sample_chain_state true false true, rule.1 = false) :=
  accept_eq_decision_list reference_externals sample_locktime_transaction sample_chain_state
    true false true (fun _ _ => by decide)

/-! ## The script stage `connect` -/

theorem connect_from_eq (E : externals) (T : transaction) (state : chain_state)
    (fuel start : Nat) :
    T.connect_from E state fuel start =
      match (List.range' start fuel).find? (fun i => (T.connect_input E state i).to_bool) with
      | some i => T.connect_input E state i
      | none => code.success := by
  induction fuel generalizing start with
  | zero => simp [transaction.connect_from]
  | succ n ih =>
    rw [transaction.connect_from, List.range'_succ, List.find?_cons]
    cases h : (T.connect_input E state start).to_bool with
    | true => simp
    | false => simpa using ih (start + 1)

theorem connect_input_coinbase (E : externals) (T : transaction) (state : chain_state)
    (h : T.is_coinbase = true) : T.connect_input E state 0 = code.success := by
  have hlen : T.inputs_.length = 1 := by
    simp only [transaction.is_coinbase, Bool.and_eq_true, beq_iff_eq] at h
    exact h.1
  simp [transaction.connect_input, hlen, h]

/-- C6. `connect(state)` visits the input indices in ascending order and returns
the result of the first index whose `connect_input` is not success, and success
when no index fails; at an index in range `connect_input` is success for a
coinbase, `missing_previous_output` when that input's previous-output cache is
invalid, and otherwise the script verifier's code for that index (narrowed to 32
bits); hence for every coinbase transaction, whatever the verifier, and for a
transaction with no inputs, `connect` returns success. -/
theorem connect_first_failure (E : externals) (T : transaction) (state : chain_state) :
    (T.connect E state =
      match (List.range T.inputs_.length).find?
          (fun i => decide (T.connect_input E state i ≠ code.success)) with
      | some i => T.connect_input E state i
      | none => code.success)
    ∧ (∀ (i : Nat) (inp : input), T.inputs_.get? i = some inp →
        T.connect_input E state i =
          if T.is_coinbase then code.success
          else if !inp.previous_output.validation.cache_is_valid then
            code.missing_previous_output
          else E.script_verify T (i % 2 ^ 32) state.enabled_forks)
    ∧ (T.is_coinbase = true → T.connect E state = code.success)
    ∧ (T.inputs_ = [] → T.connect E state = code.success) := by
  refine ⟨?_, ?_, ?_, ?_⟩
  · rw [transaction.connect, connect_from_eq, List.range_eq_range']
    rfl
  · intro i inp hget
    have hlt : i < T.inputs_.length := by
      by_contra hnot
      rw [List.get?_eq_none.mpr (Nat.le_of_not_lt hnot)] at hget
      exact Option.noConfusion hget
    simp only [transaction.connect_input, hget, if_neg (Nat.not_le.mpr hlt)]
  · intro h
    have hlen : T.inputs_.length = 1 := by
      simp only [transaction.is_coinbase, Bool.and_eq_true, beq_iff_eq] at h
      exact h.1
    simp [transaction.connect, hlen, transaction.connect_from, connect_input_coinbase E T state h,
      code.to_bool]
  · intro h
    simp [transaction.connect, h, transaction.connect_from]

/-! ## Sorting and adjacent duplicates -/

theorem point_le_antisymm (a b : point) (hab : point.le a b) (hba : point.le b a) : a = b := by
  unfold point.le at *
  cases a
  cases b
  simp only [point.mk.injEq] at *
  omega

theorem unique_length_le (l : List point) : (unique l).length ≤ l.length := by
  induction l with
  | nil => simp [unique]
  | cons a l ih =>
    cases l with
    | nil => simp [unique]
    | cons b rest =>
      unfold unique
      split_ifs
      · exact Nat.le_succ_of_le ih
      · simpa using ih

theorem nodup_of_unique_length_eq (l : List point) (hs : l.Sorted point.le)
    (h : (unique l).length = l.length) : l.Nodup := by
  induction l with
  | nil => exact List.nodup_nil
  | cons a l ih =>
    cases l with
    | nil => exact List.nodup_singleton a
    | cons b rest =>
      have hle := unique_length_le (b :: rest)
      have hsorted := List.sorted_cons.mp hs
      unfold unique at h
      split_ifs at h with hab
      · simp only [List.length_cons] at h hle
        omega
      · have htail : (unique (b :: rest)).length = (b :: rest).length := by
          simpa using h
        refine List.nodup_cons.mpr ⟨?_, ih hsorted.2 htail⟩
        intro hmem
        rcases List.mem_cons.mp hmem with heq | hrest
        · exact hab heq
        · have hba : point.le b a := (List.sorted_cons.mp hsorted.2).1 a hrest
          exact hab (point_le_antisymm a b (hsorted.1 b (List.mem_cons_self b rest)) hba)

theorem unique_length_eq_of_nodup (l : List point) (h : l.Nodup) :
    (unique l).length = l.length := by
  induction l with
  | nil => simp [unique]
  | cons a l ih =>
    cases l with
    | nil => simp [unique]
    | cons b rest =>
      have hcons := List.nodup_cons.mp h
      have hab : a ≠ b := fun heq => hcons.1 (heq ▸ List.mem_cons_self a rest)
      unfold unique
      rw [if_neg hab]
      simpa using ih hcons.2

theorem is_internal_double_spend_iff_not_nodup (T : transaction) :
    T.is_internal_double_spend = true ↔ ¬ T.previous_outputs.Nodup := by
  have hperm := List.perm_insertionSort point.le T.previous_outputs
  have hsorted := List.sorted_insertionSort point.le T.previous_outputs
  simp only [transaction.is_internal_double_spend, Bool.not_eq_true', beq_eq_false_iff_ne, ne_eq]
  constructor
  · intro h hnodup
    exact h (unique_length_eq_of_nodup _ (hperm.nodup_iff.mpr hnodup))
  · intro h heq
    exact h (hperm.nodup_iff.mp (nodup_of_unique_length_eq _ hsorted heq))

theorem is_internal_double_spend_of_spends_point_twice (T : transaction)
    (h : T.spends_point_twice) : T.is_internal_double_spend = true := by
  rw [is_internal_double_spend_iff_not_nodup, List.nodup_iff_get?_ne_get?]
  obtain ⟨i, j, hij, hj, heq⟩ := h
  intro hall
  exact hall i j hij hj heq

/-! ## Saturating output total -/

theorem ceiling_add_eq_min (ceiling left right : Nat) (hr : right ≤ ceiling) :
    ceiling_add ceiling left right = min (left + right) ceiling := by
  unfold ceiling_add
  split_ifs <;> omega

theorem foldl_ceiling_add_eq_min (outputs : List output) (total : Nat)
    (ht : total ≤ max_uint64) (hvals : ∀ o ∈ outputs, o.value ≤ max_uint64) :
    outputs.foldl (fun total o => ceiling_add max_uint64 total o.value) total
      = min (total + (outputs.map output.value).sum) max_uint64 := by
  induction outputs generalizing total with
  | nil => simp [ht]
  | cons o os ih =>
    have ho := hvals o (List.mem_cons_self o os)
    rw [List.foldl_cons, ceiling_add_eq_min _ _ _ ho,
      ih _ (Nat.min_le_right _ _) (fun x hx => hvals x (List.mem_cons_of_mem o hx))]
    simp only [List.map_cons, List.sum_cons]
    omega

theorem total_output_value_eq_min (T : transaction)
    (hvals : ∀ o ∈ T.outputs_, o.value ≤ max_uint64) :
    T.total_output_value = min (T.outputs_.map output.value).sum max_uint64 := by
  unfold transaction.total_output_value
  dsimp only
  rw [foldl_ceiling_add_eq_min _ 0 (Nat.zero_le _) hvals, Nat.zero_add]

/-! ## Rules of `check` in isolation -/

/-- C7. Every transaction with zero inputs or zero outputs fails `check` with
`empty_transaction`, for either value of the pool flag. -/
theorem check_empty_transaction (E : externals) (T : transaction) (pool : Bool)
    (h : T.inputs_ = [] ∨ T.outputs_ = []) : T.check E pool = code.empty_transaction := by
  unfold transaction.check
  rcases h with h | h <;> simp [h]

/-- Instance of C7: a transaction with one input and no output, in both
contexts. -/
theorem check_empty_transaction_witness :
    no_output_transaction.check reference_externals true = code.empty_transaction
      ∧ no_output_transaction.check reference_externals false = code.empty_transaction :=
  ⟨check_empty_transaction reference_externals no_output_transaction true (Or.inr rfl),
    check_empty_transaction reference_externals no_output_transaction false (Or.inr rfl)⟩

/-- C8 as stated fails: a transaction whose two inputs reference the identical
point but which has no output fails the pool-context `check` with
`empty_transaction`, the first rule of the list, not with
`transaction_internal_double_spend`. -/
theorem check_double_spend_counterexample :
    double_spend_no_output_transaction.spends_point_twice
      ∧ double_spend_no_output_transaction.check reference_externals true
          = code.empty_transaction
      ∧ double_spend_no_output_transaction.check reference_externals true
          ≠ code.transaction_internal_double_spend :=
  ⟨⟨0, 1, by decide, by decide, by decide⟩, by decide, by decide⟩

/-- C8, amended. Every transaction that has two inputs referencing the identical
previous-output point and that passes the earlier rules of the list (it has an
output, no null previous output, and an output total within `max_money`) fails
the pool-context `check` with `transaction_internal_double_spend`. -/
theorem check_internal_double_spend (E : externals) (T : transaction)
    (htwice : T.spends_point_twice) (hout : T.outputs_ ≠ [])
    (hnull : T.is_null_non_coinbase = false)
    (hmoney : T.total_output_value ≤ E.max_money) :
    T.check E true = code.transaction_internal_double_spend := by
  have hds := is_internal_double_spend_of_spends_point_twice T htwice
  obtain ⟨i, j, hij, hj, _⟩ := htwice
  have hlen : 2 ≤ T.inputs_.length := by
    simp only [transaction.previous_outputs, List.length_map] at hj
    omega
  have hin : T.inputs_ ≠ [] := by
    intro h
    rw [h] at hlen
    simp at hlen
  have hcb : T.is_coinbase = false := by
    have hne : T.inputs_.length ≠ 1 := by omega
    simp [transaction.is_coinbase, hne]
  unfold transaction.check
  simp [hin, hout, hnull, Nat.not_lt.mpr hmoney, hcb, hds]

/-- Instance of amended C8: two inputs referencing the same point and one
output. -/
theorem check_internal_double_spend_witness :
    double_spend_transaction.check reference_externals true
      = code.transaction_internal_double_spend :=
  check_internal_double_spend reference_externals double_spend_transaction
    ⟨0, 1, by decide, by decide, by decide⟩ (by decide) (by decide) (by decide)

/-- C9 as stated fails: a transaction with no input whose two outputs hold 2^63
each (each fits in 64 bits, the exact sum is 2^64) fails `check` with
`empty_transaction` in both contexts, not with `spend_overflow`. -/
theorem check_spend_overflow_counterexample :
    (∀ o ∈ overflow_no_input_transaction.outputs_, o.value ≤ max_uint64)
      ∧ (overflow_no_input_transaction.outputs_.map output.value).sum > max_uint64
      ∧ overflow_no_input_transaction.check reference_externals true = code.empty_transaction
      ∧ overflow_no_input_transaction.check reference_externals false
          = code.empty_transaction :=
  ⟨by decide, by decide, by decide, by decide⟩

/-- C9, amended. With `max_money` below the 64-bit sentinel, every transaction
that passes the two earlier rules of the list (it has an input and no null
previous output) and whose output values each fit in 64 bits while their exact
sum exceeds 2^64-1 fails `check` with `spend_overflow`, for either value of the
pool flag. -/
theorem check_spend_overflow (E : externals) (T : transaction) (pool : Bool)
    (hmax : E.max_money < max_uint64) (hin : T.inputs_ ≠ [])
    (hnull : T.is_null_non_coinbase = false)
    (hvals : ∀ o ∈ T.outputs_, o.value ≤ max_uint64)
    (hsum : (T.outputs_.map output.value).sum > max_uint64) :
    T.check E pool = code.spend_overflow := by
  have htotal : T.total_output_value = max_uint64 := by
    rw [total_output_value_eq_min T hvals]
    exact Nat.min_eq_right (Nat.le_of_lt hsum)
  have hout : T.outputs_ ≠ [] := by
    intro h
    rw [h] at hsum
    simp at hsum
  unfold transaction.check
  simp [hin, hout, hnull, htotal, hmax]

/-- Instance of amended C9: one input and two outputs of 2^63 each, in pool
context. -/
theorem check_spend_overflow_witness :
    overflow_transaction.check reference_externals true = code.spend_overflow :=
  check_spend_overflow reference_externals overflow_transaction true
    (by decide) (by decide) (by decide) (by decide) (by decide)

/-- C10. `total_output_value` is a saturating sum: for every list of outputs
with 64-bit values it equals the minimum of the exact sum of the output values
and 2^64-1, so it is 2^64-1 whenever the exact sum exceeds that (it never wraps
modulo 2^64), and it is the same for every reordering of the outputs. -/
theorem total_output_value_saturating (T : transaction)
    (hvals : ∀ o ∈ T.outputs_, o.value ≤ max_uint64) :
    T.total_output_value = min (T.outputs_.map output.value).sum (2 ^ 64 - 1)
      ∧ ((T.outputs_.map output.value).sum > 2 ^ 64 - 1 → T.total_output_value = 2 ^ 64 - 1)
      ∧ ∀ T2 : transaction, T2.outputs_.Perm T.outputs_ →
          T2.total_output_value = T.total_output_value := by
  have h1 := total_output_value_eq_min T hvals
  unfold max_uint64 at h1
  refine ⟨h1, ?_, ?_⟩
  · intro hsum
    rw [h1]
    exact Nat.min_eq_right (Nat.le_of_lt hsum)
  · intro T2 hperm
    have hvals2 : ∀ o ∈ T2.outputs_, o.value ≤ max_uint64 :=
      fun o ho => hvals o (hperm.mem_iff.mp ho)
    rw [total_output_value_eq_min T2 hvals2, total_output_value_eq_min T hvals,
      (hperm.map output.value).sum_eq]

/-- Instance of C10: two outputs of 2^63 each, whose total saturates. -/
theorem total_output_value_saturating_witness :
    overflow_transaction.total_output_value
        = min (overflow_transaction.outputs_.map output.value).sum (2 ^ 64 - 1)
      ∧ ((overflow_transaction.outputs_.map output.value).sum > 2 ^ 64 - 1 →
          overflow_transaction.total_output_value = 2 ^ 64 - 1)
      ∧ ∀ T2 : transaction, T2.outputs_.Perm overflow_transaction.outputs_ →
          T2.total_output_value = overflow_transaction.total_output_value :=
  total_output_value_saturating overflow_transaction (by decide)

/-! ## Coinbase detection -/

/-- C14. `is_coinbase()` is true if and only if the transaction has exactly one
input and that input's previous output is the null point (all-zero hash,
max-value index); every transaction with zero inputs, with two or more inputs,
or with a single non-null reference is not coinbase. -/
theorem is_coinbase_iff (T : transaction) :
    (T.is_coinbase = true ↔
        ∃ i : input, T.inputs_ = [i] ∧ i.previous_output.to_point = ⟨0, max_uint32⟩)
      ∧ (T.inputs_ = [] → T.is_coinbase = false)
      ∧ (2 ≤ T.inputs_.length → T.is_coinbase = false)
      ∧ (∀ i : input, T.inputs_ = [i] → i.previous_output.to_point ≠ ⟨0, max_uint32⟩ →
          T.is_coinbase = false) := by
  have hnull : ∀ p : point, p.is_null = true ↔ p = ⟨0, max_uint32⟩ := by
    intro p
    cases p
    simp [point.is_null, and_comm]
  refine ⟨?_, ?_, ?_, ?_⟩
  · cases hin : T.inputs_ with
    | nil => simp [transaction.is_coinbase, hin]
    | cons a rest =>
      cases rest with
      | nil => simp [transaction.is_coinbase, hin, output_point.is_null, hnull]
      | cons b rest2 => simp [transaction.is_coinbase, hin]
  · intro h
    simp [transaction.is_coinbase, h]
  · intro h
    have hne : T.inputs_.length ≠ 1 := by omega
    simp [transaction.is_coinbase, hne]
  · intro i hi hp
    have hfalse : i.previous_output.to_point.is_null = false := by
      cases hc : i.previous_output.to_point.is_null with
      | false => rfl
      | true => exact absurd ((hnull _).mp hc) hp
    simp [transaction.is_coinbase, hi, output_point.is_null, hfalse]

/-! ## Wire layout and hashing -/

theorem put_bytes_eq_flatten {Put : Type} (to_data : Put → Bool → data_chunk) (wire : Bool)
    (puts : List Put) :
    put_bytes to_data wire puts = (puts.map (fun p => to_data p wire)).flatten := by
  induction puts with
  | nil => rfl
  | cons p ps ih => simp [put_bytes, ih]

/-- C17. Wire layout: for every transaction, `to_data(wire = true)` is exactly the
concatenation of the 4-byte little-endian version, the variable-length integer
encoding of the input count, each input's wire encoding in sequence order, the
variable-length integer encoding of the output count, each output's wire
encoding in sequence order, and the 4-byte little-endian locktime. -/
theorem to_data_wire_layout (E : externals) (T : transaction) :
    T.to_data E true =
        to_little_endian 4 T.version_
          ++ write_variable_little_endian T.inputs_.length
          ++ (T.inputs_.map (fun i => E.input_to_data i true)).flatten
          ++ write_variable_little_endian T.outputs_.length
          ++ (T.outputs_.map (fun o => E.output_to_data o true)).flatten
          ++ to_little_endian 4 T.locktime_
      ∧ to_little_endian 4 T.version_ =
          [T.version_ % 256, T.version_ / 256 % 256, T.version_ / 256 / 256 % 256,
            T.version_ / 256 / 256 / 256 % 256]
      ∧ to_little_endian 4 T.locktime_ =
          [T.locktime_ % 256, T.locktime_ / 256 % 256, T.locktime_ / 256 / 256 % 256,
            T.locktime_ / 256 / 256 / 256 % 256] := by
  refine ⟨?_, rfl, rfl⟩
  simp only [transaction.to_data, transaction.to_data_sink, write_eq, if_true,
    write_4_bytes_little_endian, put_bytes_eq_flatten, List.nil_append, List.append_assoc]

/-- C20. The signature hash `hash(sighash_type)` is the double hash of the wire
encoding followed by the 4-byte little-endian `sighash_type`; the bytes hashed
are those hashed for the identity `hash()` with exactly those 4 bytes
appended. -/
theorem hash_sighash_eq (E : externals) (T : transaction) (sighash_type : Nat) :
    T.hash_sighash E sighash_type
        = E.bitcoin_hash (T.to_data E true ++ to_little_endian 4 sighash_type)
      ∧ T.hash E = E.bitcoin_hash (T.to_data E true)
      ∧ (T.to_data E true ++ to_little_endian 4 sighash_type).length
          = (T.to_data E true).length + 4
      ∧ to_little_endian 4 sighash_type =
          [sighash_type % 256, sighash_type / 256 % 256, sighash_type / 256 / 256 % 256,
            sighash_type / 256 / 256 / 256 % 256] := by
  refine ⟨rfl, rfl, ?_, rfl⟩
  simp [to_little_endian_length]

/-! ## Finality -/

theorem is_final_of_returns (E : externals) (T : transaction) (block_height block_time : Nat)
    (hreturns : block_height ≤ max_uint32 ∨ T.locktime_ = 0
      ∨ E.locktime_threshold ≤ T.locktime_) :
    T.is_final E block_height block_time =
      some (decide (T.locktime_ = 0
        ∨ T.locktime_ < (if T.locktime_ < E.locktime_threshold then block_height else block_time)
        ∨ T.all_inputs_final E = true)) := by
  unfold transaction.is_final safe_unsigned_uint32
  by_cases h0 : T.locktime_ = 0
  · simp [h0]
  · by_cases ht : T.locktime_ < E.locktime_threshold
    · have hh : ¬ block_height > max_uint32 := by omega
      simp [h0, ht, hh]
    · simp [h0, ht]

/-- C12 as stated fails: a transaction with locktime 1 whose only input is final
is not reported final at height 2^32: the narrowing of the height throws before
the inputs are looked at, so `is_final` returns no value. -/
theorem is_final_counterexample :
    final_input_locktime_transaction.all_inputs_final reference_externals = true
      ∧ final_input_locktime_transaction.is_final reference_externals 4294967296 1500000000
          = none := by
  decide

/-- C12, amended. Whenever `is_final` returns a value, that is, the height is at
most 2^32-1 or the locktime is 0 or at least `locktime_threshold`,
`is_final(height, time)` holds exactly when locktime == 0, or locktime < bound, or
every input is final, where bound is the height when locktime is below
`locktime_threshold` and the time otherwise; in particular a transaction with
locktime 0 is final, and a transaction whose inputs are all final is final
whatever its locktime. -/
theorem is_final_iff (E : externals) (T : transaction) (block_height block_time : Nat)
    (hreturns : block_height ≤ max_uint32 ∨ T.locktime_ = 0
      ∨ E.locktime_threshold ≤ T.locktime_) :
    T.is_final E block_height block_time =
        some (decide (T.locktime_ = 0
          ∨ T.locktime_ < (if T.locktime_ < E.locktime_threshold then block_height
              else block_time)
          ∨ T.all_inputs_final E = true))
      ∧ (T.locktime_ = 0 → T.is_final E block_height block_time = some true)
      ∧ (T.all_inputs_final E = true → T.is_final E block_height block_time = some true) := by
  have h := is_final_of_returns E T block_height block_time hreturns
  refine ⟨h, ?_, ?_⟩
  · intro h0
    rw [h]
    simp [h0]
  · intro hall
    rw [h]
    simp [hall]

/-- Instance of amended C12: locktime 1 and a final input at height 600000. -/
theorem is_final_iff_witness :
    final_input_locktime_transaction.is_final reference_externals 600000 1500000000 =
        some (decide (final_input_locktime_transaction.locktime_ = 0
          ∨ final_input_locktime_transaction.locktime_ <
              (if final_input_locktime_transaction.locktime_
                  < reference_externals.locktime_threshold then 600000 else 1500000000)
          ∨ final_input_locktime_transaction.all_inputs_final reference_externals = true))
      ∧ (final_input_locktime_transaction.locktime_ = 0 →
          final_input_locktime_transaction.is_final reference_externals 600000 1500000000
            = some true)
      ∧ (final_input_locktime_transaction.all_inputs_final reference_externals = true →
          final_input_locktime_transaction.is_final reference_externals 600000 1500000000
            = some true) :=
  is_final_iff reference_externals final_input_locktime_transaction 600000 1500000000
    (Or.inl (by decide))

/-- C13 as stated fails: a transaction with locktime 500000 and no input at all
has no input carrying a final sequence, yet it is final at height 499999,
because `all_inputs_final` holds of an empty input sequence. -/
theorem is_final_locktime_500000_counterexample :
    locktime_no_input_transaction.locktime_ = 500000
      ∧ (∀ i ∈ locktime_no_input_transaction.inputs_,
          reference_externals.input_is_final i = false)
      ∧ locktime_no_input_transaction.is_final reference_externals 499999 1500000000
          = some true := by
  refine ⟨rfl, ?_, by decide⟩
  intro i hi
  simp [locktime_no_input_transaction] at hi

/-- C13, amended. With `locktime_threshold` above 500000, for every transaction
with locktime = 500000, at least one input and no input carrying a final
sequence, and every block time: `is_final` at height 500001 is true, and
`is_final` at height 499999 is false. -/
theorem is_final_locktime_500000 (E : externals) (T : transaction) (block_time : Nat)
    (hthreshold : 500000 < E.locktime_threshold) (hlock : T.locktime_ = 500000)
    (hne : T.inputs_ ≠ []) (hnone : ∀ i ∈ T.inputs_, E.input_is_final i = false) :
    T.is_final E 500001 block_time = some true
      ∧ T.is_final E 499999 block_time = some false := by
  have hall : T.all_inputs_final E = false := by
    cases hin : T.inputs_ with
    | nil => exact absurd hin hne
    | cons a rest =>
      have ha := hnone a (by rw [hin]; exact List.mem_cons_self a rest)
      simp [transaction.all_inputs_final, hin, ha]
  constructor
  · rw [is_final_of_returns E T 500001 block_time (Or.inl (by decide))]
    simp [hlock, hthreshold]
  · rw [is_final_of_returns E T 499999 block_time (Or.inl (by decide))]
    simp [hlock, hthreshold, hall]

/-- Instance of amended C13: locktime 500000 and one input with sequence 0. -/
theorem is_final_locktime_500000_witness :
    locktime_transaction.is_final reference_externals 500001 1500000000 = some true
      ∧ locktime_transaction.is_final reference_externals 499999 1500000000 = some false :=
  is_final_locktime_500000 reference_externals locktime_transaction 1500000000
    (by decide) rfl (by decide) (by decide)

/-! ## Coinbase maturity in `accept` -/

theorem first_firing_fires (rules : List (Bool × code)) (e : code)
    (h : first_firing rules = e) (he : e ≠ code.success) : (true, e) ∈ rules := by
  induction rules with
  | nil => exact absurd (h.symm.trans first_firing_nil) he
  | cons r rs ih =>
    obtain ⟨c, e2⟩ := r
    rw [first_firing_cons] at h
    cases c with
    | true =>
      simp only [if_true] at h
      rw [h]
      exact List.mem_cons_self _ _
    | false =>
      simp only [Bool.false_eq_true, if_false] at h
      exact List.mem_cons_of_mem _ (ih h)

theorem accept_of_final (E : externals) (T : transaction) (state : chain_state)
    (pool tx_duplicate final : Bool)
    (hfinal : pool = true → state.is_under_checkpoint = false →
      T.is_final E state.height state.median_time_past = some final) :
    T.accept E state pool tx_duplicate
      = some (first_firing (accept_rules E T state pool tx_duplicate final)) := by
  cases pool with
  | false =>
    simp only [transaction.accept, accept_rules, some_first_firing_cons, first_firing_nil,
      decide_eq_true_eq, Bool.false_and, Bool.false_eq_true, if_false]
  | true =>
    cases hc : state.is_under_checkpoint with
    | true =>
      simp [transaction.accept, accept_rules, first_firing_cons, hc]
    | false =>
      have hf := hfinal rfl hc
      simp only [transaction.accept, accept_rules, some_first_firing_cons, first_firing_nil,
        decide_eq_true_eq, hc, hf, Bool.and_false, Bool.false_eq_true, if_false,
        Bool.true_and, if_true]

theorem accept_none_or_first_firing (E : externals) (T : transaction) (state : chain_state)
    (pool tx_duplicate : Bool) :
    T.accept E state pool tx_duplicate = none
      ∨ ∃ final : Bool, T.accept E state pool tx_duplicate
          = some (first_firing (accept_rules E T state pool tx_duplicate final)) := by
  cases hf : T.is_final E state.height state.median_time_past with
  | some final => exact Or.inr ⟨final, accept_of_final E T state pool tx_duplicate final
      (fun _ _ => hf)⟩
  | none =>
    cases pool with
    | false => exact Or.inr ⟨true, accept_of_final E T state false tx_duplicate true
        (fun h _ => Bool.noConfusion h)⟩
    | true =>
      cases hc : state.is_under_checkpoint with
      | true => exact Or.inr ⟨true, accept_of_final E T state true tx_duplicate true
          (fun _ h => Bool.noConfusion (hc.symm.trans h))⟩
      | false =>
        left
        simp [transaction.accept, hc, hf]

/-- C11 as stated fails: a transaction that spends an output which is not mature
at height 50 and is already spent by a confirmed transaction fails `accept` with
`double_spend`, an earlier rule of the list, not with `coinbase_maturity`. -/
theorem accept_coinbase_maturity_counterexample :
    spent_prevout_transaction.is_mature coinbase_spending_externals young_chain_state.height
        = false
      ∧ spent_prevout_transaction.accept coinbase_spending_externals young_chain_state
          false false = some code.double_spend := by
  decide

/-- C11, amended. For every transaction that spends an output which is not mature
at the chain state's height and for which none of the five earlier rules of
`accept` fires (checkpoint, finality, duplicate, missing previous output, double
spend), `accept` returns `coinbase_maturity`; when every referenced output is
mature at that height, `accept` never returns `coinbase_maturity`. -/
theorem accept_coinbase_maturity (E : externals) (T : transaction) (state : chain_state)
    (pool tx_duplicate : Bool) :
    (T.is_mature E state.height = false →
        (pool && state.is_under_checkpoint) = false →
        (pool = true → T.is_final E state.height state.median_time_past = some true) →
        (!(state.is_enabled rule_fork.allow_collisions && !pool)
          && state.is_enabled rule_fork.bip30_rule && tx_duplicate) = false →
        T.is_missing_previous_outputs = false →
        T.is_double_spend pool = false →
        T.accept E state pool tx_duplicate = some code.coinbase_maturity)
      ∧ (T.is_mature E state.height = true →
          T.accept E state pool tx_duplicate ≠ some code.coinbase_maturity) := by
  constructor
  · intro hm hcp hfinal hdup hmissing hds
    cases pool with
    | false =>
      simp only [Bool.not_false, Bool.and_true] at hdup
      simp [transaction.accept, hm, hdup, hmissing, hds]
    | true =>
      have hcp2 : state.is_under_checkpoint = false := by simpa using hcp
      simp only [Bool.not_true, Bool.and_false, Bool.not_false, Bool.true_and] at hdup
      simp [transaction.accept, hm, hcp2, hfinal rfl, hdup, hmissing, hds]
  · intro hm h
    rcases accept_none_or_first_firing E T state pool tx_duplicate with hnone | ⟨final, hsome⟩
    · rw [hnone] at h
      exact Option.noConfusion h
    · rw [hsome, Option.some_inj] at h
      have hmem := first_firing_fires _ _ h (by decide)
      simp [accept_rules, hm] at hmem

/-- Instance of amended C11: in block context at height 50 a transaction with a
cached, unspent, immature previous output is rejected with `coinbase_maturity`,
and at height 600000 it is not. -/
theorem accept_coinbase_maturity_witness :
    cached_prevout_transaction.accept coinbase_spending_externals young_chain_state false false
        = some code.coinbase_maturity
      ∧ cached_prevout_transaction.accept coinbase_spending_externals sample_chain_state
          false false ≠ some code.coinbase_maturity :=
  ⟨(accept_coinbase_maturity coinbase_spending_externals cached_prevout_transaction
      young_chain_state false false).1 (by decide) (by decide) (by decide) (by decide)
      (by decide) (by decide),
    (accept_coinbase_maturity coinbase_spending_externals cached_prevout_transaction
      sample_chain_state false false).2 (by decide)⟩

/-! ## Totality of `accept` -/

theorem is_final_isSome_iff (E : externals) (T : transaction) (block_height block_time : Nat) :
    (T.is_final E block_height block_time).isSome = true ↔
      ¬ (T.locktime_ ≠ 0 ∧ T.locktime_ < E.locktime_threshold ∧ block_height > max_uint32) := by
  unfold transaction.is_final safe_unsigned_uint32
  by_cases h0 : T.locktime_ = 0
  · simp [h0]
  · by_cases ht : T.locktime_ < E.locktime_threshold
    · by_cases hh : block_height > max_uint32
      · simp [h0, ht, hh]
      · simp [h0, ht, hh]
    · simp [h0, ht]

/-- C18 as stated fails: in pool context, for a transaction with locktime 500000
and a chain state at height 5000000000 (above 2^32-1), the narrowing of the height
inside `is_final` throws and `accept` returns no error code. -/
theorem accept_total_counterexample :
    far_chain_state.height > 2 ^ 32 - 1
      ∧ locktime_transaction.is_final reference_externals far_chain_state.height
          far_chain_state.median_time_past = none
      ∧ locktime_transaction.accept reference_externals far_chain_state true false = none := by
  decide

/-- C18, amended. `is_final` returns a value except when 0 < locktime <
`locktime_threshold` and the height is above 2^32-1, where the narrowing of the
height throws; `accept` returns an error code except when it calls `is_final`
(pool context, not under a checkpoint) in that case; in particular `accept`
returns an error code for every transaction and every chain state whose height is
at most 2^32-1. -/
theorem accept_returns_iff (E : externals) (T : transaction) (state : chain_state)
    (pool tx_duplicate : Bool) :
    ((T.is_final E state.height state.median_time_past).isSome = true ↔
        ¬ (T.locktime_ ≠ 0 ∧ T.locktime_ < E.locktime_threshold
          ∧ state.height > max_uint32))
      ∧ ((T.accept E state pool tx_duplicate).isSome = true ↔
        ¬ (pool = true ∧ state.is_under_checkpoint = false ∧ T.locktime_ ≠ 0
          ∧ T.locktime_ < E.locktime_threshold ∧ state.height > max_uint32))
      ∧ (state.height ≤ max_uint32 →
          ∃ c : code, T.accept E state pool tx_duplicate = some c) := by
  have hfin := is_final_isSome_iff E T state.height state.median_time_past
  have hacc : (T.accept E state pool tx_duplicate).isSome = true ↔
      ¬ (pool = true ∧ state.is_under_checkpoint = false ∧ T.locktime_ ≠ 0
        ∧ T.locktime_ < E.locktime_threshold ∧ state.height > max_uint32) := by
    cases pool with
    | false =>
      rw [accept_of_final E T state false tx_duplicate true (fun h _ => Bool.noConfusion h)]
      simp
    | true =>
      cases hc : state.is_under_checkpoint with
      | true =>
        rw [accept_of_final E T state true tx_duplicate true
          (fun _ h => Bool.noConfusion (hc.symm.trans h))]
        simp
      | false =>
        cases hf : T.is_final E state.height state.median_time_past with
        | some final =>
          rw [accept_of_final E T state true tx_duplicate final (fun _ _ => hf)]
          rw [hf] at hfin
          simpa using hfin
        | none =>
          have hnone : T.accept E state true tx_duplicate = none := by
            simp [transaction.accept, hc, hf]
          rw [hf] at hfin
          rw [hnone]
          simpa using hfin
  refine ⟨hfin, hacc, ?_⟩
  intro hheight
  have hsome : (T.accept E state pool tx_duplicate).isSome = true :=
    hacc.mpr (fun h => absurd h.2.2.2.2 (Nat.not_lt.mpr hheight))
  exact Option.isSome_iff_exists.mp hsome

/-- Instance of amended C18: at height 600000 `accept` returns a code in pool
context for the transaction with locktime 500000. -/
theorem accept_returns_iff_witness :
    ∃ c : code, locktime_transaction.accept reference_externals sample_chain_state true false
      = some c :=
  (accept_returns_iff reference_externals locktime_transaction sample_chain_state
    true false).2.2 (by decide)

/-! ## Signature operations -/

/-- C19 fails on the code: with 2^63 signature operations reported for the single
input and 2^63 for the single output, the exact total 2^64 overflows `size_t`, yet
`signature_operations` returns 0, the wrapped sum of the two accumulations, not
`max_size_t`. -/
theorem signature_operations_wraps :
    ((cached_prevout_transaction.inputs_.map
          (fun i => heavy_sigops_externals.input_signature_operations i true)).sum
        + (cached_prevout_transaction.outputs_.map
          (fun o => heavy_sigops_externals.output_signature_operations o)).sum
        = 2 ^ 64)
      ∧ cached_prevout_transaction.signature_operations heavy_sigops_externals true = 0
      ∧ cached_prevout_transaction.signature_operations heavy_sigops_externals true
          ≠ max_size_t := by
  decide

/-! ## The transaction hash -/

theorem script_length_transaction_to_data_length (E : externals)
    (hout : E.output_to_data = reference_output_to_data) (k : Nat) :
    ((script_length_transaction k).to_data E true).length
      = 18 + variable_uint_size k + k := by
  rw [to_data_length, hout]
  simp only [script_length_transaction,
    put_bytes, reference_output_to_data, List.length_append, List.length_nil,
    to_little_endian_length, write_variable_little_endian_length, List.length_replicate,
    List.length_cons, if_true]
  have h0 : variable_uint_size 0 = 1 := by decide
  have h1 : variable_uint_size 1 = 1 := by decide
  simp only [Nat.zero_add, h0, h1]
  omega

theorem variable_uint_size_add_injective (k1 k2 : Nat)
    (h : variable_uint_size k1 + k1 = variable_uint_size k2 + k2) : k1 = k2 := by
  unfold variable_uint_size at h
  split_ifs at h <;> omega

/-- Whatever hash primitive with 256-bit digests stands behind `bitcoin_hash`, over
the reference output layout two transactions with different wire encodings and the
same hash exist. The proof counts (unboundedly many encodings, finitely many
digests) and exhibits no pair. -/
theorem hash_collision_exists (E : externals)
    (hout : E.output_to_data = reference_output_to_data)
    (hdigest : ∀ d, E.bitcoin_hash d < 2 ^ 256) :
    ∃ T1 T2 : transaction,
      T1.hash E = T2.hash E ∧ T1.to_data E true ≠ T2.to_data E true := by
  have hni : ¬ Function.Injective (fun k : Nat =>
      (⟨E.bitcoin_hash ((script_length_transaction k).to_data E true),
        hdigest _⟩ : Fin (2 ^ 256))) := not_injective_infinite_finite _
  rw [Function.Injective] at hni
  push_neg at hni
  obtain ⟨k1, k2, heq, hne⟩ := hni
  refine ⟨script_length_transaction k1, script_length_transaction k2, ?_, ?_⟩
  · exact congrArg Fin.val heq
  · intro hd
    apply hne
    have hlen := congrArg List.length hd
    rw [script_length_transaction_to_data_length E hout,
      script_length_transaction_to_data_length E hout] at hlen
    exact variable_uint_size_add_injective k1 k2 (by omega)

/-- Transactions with the same wire encoding have the same hash. -/
theorem hash_eq_of_to_data_eq (E : externals) (T1 T2 : transaction)
    (h : T1.to_data E true = T2.to_data E true) : T1.hash E = T2.hash E := by
  simp only [transaction.hash, h]

/-! ## The sequence-count guard -/

theorem read_byte_invalid (s : reader) (h : s.valid = false) : s.read_byte = (0, s) := by
  simp [reader.read_byte, h]

theorem read_little_endian_invalid (n : Nat) (s : reader) (h : s.valid = false) :
    reader.read_little_endian n s = (0, s) := by
  induction n with
  | zero => rfl
  | succ n ih => simp [reader.read_little_endian, read_byte_invalid s h, ih]

theorem read_4_bytes_invalid (s : reader) (h : s.valid = false) :
    s.read_4_bytes_little_endian = (0, s) :=
  read_little_endian_invalid 4 s h

theorem read_variable_invalid (s : reader) (h : s.valid = false) :
    s.read_variable_little_endian = (0, s) := by
  simp [reader.read_variable_little_endian, read_byte_invalid s h]

theorem read_size_invalid (s : reader) (h : s.valid = false) :
    s.read_size_little_endian = (0, s) := by
  simp [reader.read_size_little_endian, read_variable_invalid s h]

theorem read_of_invalid {Put : Type} (E : externals) (init : Put)
    (from_data : Put → reader → Bool → Bool × Put × reader) (s : reader) (wire : Bool)
    (h : s.valid = false) : read E init from_data s [] wire = (true, s, []) := by
  simp [read, read_size_invalid s h, resize, deserialize_each]

theorem read_of_count_above {Put : Type} (E : externals) (init : Put)
    (from_data : Put → reader → Bool → Bool × Put × reader) (s : reader) (wire : Bool)
    (h : s.read_size_little_endian.1 > E.max_block_size) :
    read E init from_data s [] wire = (true, s.read_size_little_endian.2.invalidate, []) := by
  simp [read, h, deserialize_each]

theorem invalidate_valid (s : reader) : s.invalidate.valid = false := rfl

theorem from_data_wire_input_count_above (E : externals) (prior : transaction) (source : reader)
    (h : source.read_4_bytes_little_endian.2.read_size_little_endian.1 > E.max_block_size) :
    (prior.from_data E source true).1 = false
      ∧ (prior.from_data E source true).2.1 = ⟨0, 0, [], []⟩ := by
  have hinv := invalidate_valid source.read_4_bytes_little_endian.2.read_size_little_endian.2
  simp only [transaction.from_data, transaction.reset, if_true,
    read_of_count_above E _ _ _ true h, read_of_invalid E _ _ _ true hinv,
    read_4_bytes_invalid _ hinv, hinv]
  simp

theorem from_data_wire_output_count_above (E : externals) (prior : transaction) (source : reader)
    (hins : (read E E.input_default E.input_from_data
      source.read_4_bytes_little_endian.2 [] true).1 = true)
    (h : (read E E.input_default E.input_from_data
      source.read_4_bytes_little_endian.2 [] true).2.1.read_size_little_endian.1
        > E.max_block_size) :
    (prior.from_data E source true).1 = false
      ∧ (prior.from_data E source true).2.1 = ⟨0, 0, [], []⟩ := by
  have hinv := invalidate_valid (read E E.input_default E.input_from_data
      source.read_4_bytes_little_endian.2 [] true).2.1.read_size_little_endian.2
  simp only [transaction.from_data, transaction.reset, if_true, hins,
    read_of_count_above E _ _ _ true h, read_4_bytes_invalid _ hinv, hinv]
  simp

theorem from_data_store_output_count_above (E : externals) (prior : transaction)
    (source : reader) (h : source.read_size_little_endian.1 > E.max_block_size) :
    (prior.from_data E source false).1 = false
      ∧ (prior.from_data E source false).2.1 = ⟨0, 0, [], []⟩ := by
  have hinv := invalidate_valid source.read_size_little_endian.2
  simp only [transaction.from_data, transaction.reset, Bool.false_eq_true, if_false, if_true,
    read_of_count_above E _ _ _ false h, read_of_invalid E _ _ _ false hinv,
    read_variable_invalid _ hinv, hinv]
  split_ifs <;> simp [invalidate_valid, hinv]

theorem from_data_store_input_count_above (E : externals) (prior : transaction)
    (source : reader)
    (houts : (read E E.output_default E.output_from_data source [] false).1 = true)
    (h : (read E E.output_default E.output_from_data
      source [] false).2.1.read_size_little_endian.1 > E.max_block_size) :
    (prior.from_data E source false).1 = false
      ∧ (prior.from_data E source false).2.1 = ⟨0, 0, [], []⟩ := by
  have hinv := invalidate_valid (read E E.output_default E.output_from_data
      source [] false).2.1.read_size_little_endian.2
  simp only [transaction.from_data, transaction.reset, Bool.false_eq_true, if_false, if_true,
    houts, read_of_count_above E _ _ _ false h, read_variable_invalid _ hinv, hinv]
  split_ifs <;> simp_all [reader.invalidate]

/-- C16. Sequence-count guard: when the count that `read` reads from the source
exceeds the max-block-size bound, `read` marks the source invalid and leaves the
(empty) target sequence empty; and when the input count or the output count that
the transaction-level `from_data` reads exceeds the bound, in either layout,
`from_data` returns false with the transaction reset; in particular for a valid
reader over bytes that declare such a count. -/
theorem sequence_count_guard {Put : Type} (E : externals) (init : Put)
    (from_data : Put → reader → Bool → Bool × Put × reader)
    (prior : transaction) (source : reader) (wire : Bool) :
    (source.read_size_little_endian.1 > E.max_block_size →
        read E init from_data source [] wire
            = (true, source.read_size_little_endian.2.invalidate, [])
          ∧ (read E init from_data source [] wire).2.1.valid = false)
      ∧ (source.read_4_bytes_little_endian.2.read_size_little_endian.1 > E.max_block_size →
          (prior.from_data E source true).1 = false
            ∧ (prior.from_data E source true).2.1 = ⟨0, 0, [], []⟩)
      ∧ ((read E E.input_default E.input_from_data
            source.read_4_bytes_little_endian.2 [] true).1 = true →
          (read E E.input_default E.input_from_data
            source.read_4_bytes_little_endian.2 [] true).2.1.read_size_little_endian.1
              > E.max_block_size →
          (prior.from_data E source true).1 = false
            ∧ (prior.from_data E source true).2.1 = ⟨0, 0, [], []⟩)
      ∧ (source.read_size_little_endian.1 > E.max_block_size →
          (prior.from_data E source false).1 = false
            ∧ (prior.from_data E source false).2.1 = ⟨0, 0, [], []⟩)
      ∧ ((read E E.output_default E.output_from_data source [] false).1 = true →
          (read E E.output_default E.output_from_data
            source [] false).2.1.read_size_little_endian.1 > E.max_block_size →
          (prior.from_data E source false).1 = false
            ∧ (prior.from_data E source false).2.1 = ⟨0, 0, [], []⟩)
      ∧ (∀ (version count : Nat) (rest : data_chunk),
          E.max_block_size < count → count ≤ max_size_t →
          (prior.from_data_chunk E
            (to_little_endian 4 version ++ (write_variable_little_endian count ++ rest))
            true) = (false, ⟨0, 0, [], []⟩))
      ∧ (∀ (count : Nat) (rest : data_chunk),
          E.max_block_size < count → count ≤ max_size_t →
          (prior.from_data_chunk E (write_variable_little_endian count ++ rest) false)
            = (false, ⟨0, 0, [], []⟩)) := by
  refine ⟨?_, from_data_wire_input_count_above E prior source,
    from_data_wire_output_count_above E prior source,
    from_data_store_output_count_above E prior source,
    from_data_store_input_count_above E prior source, ?_, ?_⟩
  · intro h
    have hread := read_of_count_above E init from_data source wire h
    exact ⟨hread, by rw [hread]; rfl⟩
  · intro version count rest hcount hfit
    have hpos : (reader.read_size_little_endian (reader.read_4_bytes_little_endian
        (reader.of_data (to_little_endian 4 version
          ++ (write_variable_little_endian count ++ rest)))).2).1 > E.max_block_size := by
      unfold reader.of_data
      rw [reader.read_4_bytes_little_endian,
        read_little_endian_to_little_endian, read_size_write_variable count hfit]
      exact hcount
    have hfail := from_data_wire_input_count_above E prior _ hpos
    simp only [transaction.from_data_chunk, hfail.1, hfail.2]
  · intro count rest hcount hfit
    have hpos : (reader.read_size_little_endian
        (reader.of_data (write_variable_little_endian count ++ rest))).1
          > E.max_block_size := by
      unfold reader.of_data
      rw [read_size_write_variable count hfit]
      exact hcount
    have hfail := from_data_store_output_count_above E prior _ hpos
    simp only [transaction.from_data_chunk, hfail.1, hfail.2]

/-- Instance of C16: wire bytes that declare 2000000 inputs, above the bound
1000000 of the reference instance. -/
theorem sequence_count_guard_witness :
    (sample_transaction.from_data reference_externals
        (reader.of_data [1, 0, 0, 0, 254, 128, 132, 30, 0, 7, 7, 7]) true).1 = false
      ∧ (sample_transaction.from_data reference_externals
        (reader.of_data [1, 0, 0, 0, 254, 128, 132, 30, 0, 7, 7, 7]) true).2.1
          = ⟨0, 0, [], []⟩ :=
  (sequence_count_guard reference_externals reference_input_default
    reference_input_from_data sample_transaction
    (reader.of_data [1, 0, 0, 0, 254, 128, 132, 30, 0, 7, 7, 7]) true).2.1 (by decide)

/-! ## Validity of the parsed object -/

/-- C21. `is_valid()` is false if and only if version == 0, locktime == 0, inputs
is empty and outputs is empty; any single non-default field (a populated input or
output sequence included) makes `is_valid()` true, and the default-constructed
and the reset transactions are not valid. -/
theorem is_valid_iff (T : transaction) :
    (T.is_valid = false ↔
        T.version_ = 0 ∧ T.locktime_ = 0 ∧ T.inputs_ = [] ∧ T.outputs_ = [])
      ∧ (T.version_ ≠ 0 → T.is_valid = true)
      ∧ (T.locktime_ ≠ 0 → T.is_valid = true)
      ∧ (T.inputs_ ≠ [] → T.is_valid = true)
      ∧ (T.outputs_ ≠ [] → T.is_valid = true)
      ∧ transaction.transaction.is_valid = false
      ∧ T.reset.is_valid = false := by
  have hiff : T.is_valid = false ↔
      T.version_ = 0 ∧ T.locktime_ = 0 ∧ T.inputs_ = [] ∧ T.outputs_ = [] := by
    simp [transaction.is_valid, and_assoc]
  have hvalid : ∀ p : Prop, (p → ¬ (T.version_ = 0 ∧ T.locktime_ = 0 ∧ T.inputs_ = []
      ∧ T.outputs_ = [])) → p → T.is_valid = true := by
    intro p hp h
    cases hv : T.is_valid with
    | true => rfl
    | false => exact absurd (hiff.mp hv) (hp h)
  refine ⟨hiff, hvalid _ (fun h c => h c.1), hvalid _ (fun h c => h c.2.1),
    hvalid _ (fun h c => h c.2.2.1), hvalid _ (fun h c => h c.2.2.2), rfl, rfl⟩

/-! ## Saturating input total -/

theorem foldl_ceiling_add_map_eq_min {α : Type} (f : α → Nat) (l : List α) (total : Nat)
    (ht : total ≤ max_uint64) (hvals : ∀ x ∈ l, f x ≤ max_uint64) :
    l.foldl (fun total x => ceiling_add max_uint64 total (f x)) total
      = min (total + (l.map f).sum) max_uint64 := by
  induction l generalizing total with
  | nil => simp [ht]
  | cons x xs ih =>
    have hx := hvals x (List.mem_cons_self x xs)
    rw [List.foldl_cons, ceiling_add_eq_min _ _ _ hx,
      ih _ (Nat.min_le_right _ _) (fun y hy => hvals y (List.mem_cons_of_mem x hy))]
    simp only [List.map_cons, List.sum_cons]
    omega

theorem sum_valid_or_zero (l : List input) :
    (l.map (fun i => if (!i.previous_output.validation.cache_is_valid) = true then 0
        else i.previous_output.validation.cache_value)).sum
      = ((l.filter (fun i => i.previous_output.validation.cache_is_valid)).map
          (fun i => i.previous_output.validation.cache_value)).sum := by
  induction l with
  | nil => rfl
  | cons i is ih =>
    cases hv : i.previous_output.validation.cache_is_valid with
    | true => simpa [List.filter_cons, hv] using ih
    | false => simpa [List.filter_cons, hv] using ih

/-- C22. `total_input_value` is the saturating sum of the cached previous-output
values in which every input whose previous-output cache entry is invalid
contributes zero: for 64-bit cached values it equals the minimum of the exact sum
of the values of the inputs with a valid cache entry and 2^64-1. -/
theorem total_input_value_saturating (T : transaction)
    (hvals : ∀ i ∈ T.inputs_, i.previous_output.validation.cache_is_valid = true →
      i.previous_output.validation.cache_value ≤ max_uint64) :
    T.total_input_value
      = min ((T.inputs_.filter (fun i => i.previous_output.validation.cache_is_valid)).map
          (fun i => i.previous_output.validation.cache_value)).sum (2 ^ 64 - 1) := by
  have hbound : ∀ i ∈ T.inputs_,
      (if (!i.previous_output.validation.cache_is_valid) = true then 0
        else i.previous_output.validation.cache_value) ≤ max_uint64 := by
    intro i hi
    cases hv : i.previous_output.validation.cache_is_valid with
    | true => simpa [hv] using hvals i hi hv
    | false => simp
  have h := foldl_ceiling_add_map_eq_min
    (fun i : input => if (!i.previous_output.validation.cache_is_valid) = true then 0
      else i.previous_output.validation.cache_value) T.inputs_ 0 (Nat.zero_le _) hbound
  rw [Nat.zero_add, sum_valid_or_zero] at h
  unfold transaction.total_input_value
  dsimp only
  rw [h]
  rfl

/-- Instance of C22: a cached previous output of 80000 and a missing one. -/
theorem total_input_value_saturating_witness :
    partly_cached_transaction.total_input_value
      = min ((partly_cached_transaction.inputs_.filter
          (fun i => i.previous_output.validation.cache_is_valid)).map
          (fun i => i.previous_output.validation.cache_value)).sum (2 ^ 64 - 1) :=
  total_input_value_saturating partly_cached_transaction (by decide)

/-! ## Missing previous outputs -/

theorem foldl_missing_eq (l : List input) (acc : List point) :
    l.foldl (fun prevouts i =>
        if (!i.previous_output.validation.cache_is_valid && !i.previous_output.is_null) = true
        then prevouts ++ [i.previous_output.to_point] else prevouts) acc
      = acc ++ (l.filter (fun i => !i.previous_output.validation.cache_is_valid
          && !i.previous_output.is_null)).map (fun i => i.previous_output.to_point) := by
  induction l generalizing acc with
  | nil => simp
  | cons i is ih =>
    rw [List.foldl_cons, ih]
    cases h : (!i.previous_output.validation.cache_is_valid && !i.previous_output.is_null)
    · simp [List.filter_cons, h]
    · simp [List.filter_cons, h]

/-- C25. `is_missing_previous_outputs()` is an optimisation of the list form: for
every transaction it equals `!missing_previous_outputs().empty()`, and
`missing_previous_outputs()` is exactly the sub-list, in input order, of the
previous-output points that are non-null and have an invalid cache entry. -/
theorem is_missing_previous_outputs_eq (T : transaction) :
    T.is_missing_previous_outputs = !T.missing_previous_outputs.isEmpty
      ∧ T.missing_previous_outputs
          = (T.inputs_.filter (fun i => !i.previous_output.validation.cache_is_valid
              && !i.previous_output.is_null)).map (fun i => i.previous_output.to_point) := by
  have hlist : T.missing_previous_outputs
      = (T.inputs_.filter (fun i => !i.previous_output.validation.cache_is_valid
          && !i.previous_output.is_null)).map (fun i => i.previous_output.to_point) := by
    unfold transaction.missing_previous_outputs
    dsimp only
    rw [foldl_missing_eq, List.nil_append]
  refine ⟨?_, hlist⟩
  rw [hlist]
  unfold transaction.is_missing_previous_outputs
  induction T.inputs_ with
  | nil => rfl
  | cons i is ih =>
    cases h : (!i.previous_output.validation.cache_is_valid && !i.previous_output.is_null)
    · simpa [List.filter_cons, h] using ih
    · simp [List.filter_cons, h]

/-! ## Internal double spend -/

theorem not_nodup_map_iff {α β : Type} (f : α → β) (l : List α) :
    ¬ (l.map f).Nodup ↔ ∃ i j : Fin l.length, i ≠ j ∧ f (l.get i) = f (l.get j) := by
  rw [List.nodup_iff_getElem?_ne_getElem?]
  push_neg
  constructor
  · rintro ⟨i, j, hij, hj, heq⟩
    rw [List.length_map] at hj
    have hi : i < l.length := Nat.lt_trans hij hj
    rw [List.getElem?_map, List.getElem?_map, List.getElem?_eq_getElem hi,
      List.getElem?_eq_getElem hj] at heq
    refine ⟨⟨i, hi⟩, ⟨j, hj⟩, ?_, ?_⟩
    · intro h
      have := congrArg Fin.val h
      simp only at this
      omega
    · simpa using heq
  · rintro ⟨i, j, hne, heq⟩
    have hval : i.val ≠ j.val := fun h => hne (Fin.ext h)
    have key : ∀ a b : Fin l.length, a.val < b.val → f (l.get a) = f (l.get b) →
        ∃ i j : Nat, i < j ∧ j < (l.map f).length ∧ (l.map f)[i]? = (l.map f)[j]? := by
      intro a b hab hf
      refine ⟨a.val, b.val, hab, by rw [List.length_map]; exact b.isLt, ?_⟩
      rw [List.getElem?_map, List.getElem?_map, List.getElem?_eq_getElem a.isLt,
        List.getElem?_eq_getElem b.isLt]
      simpa using hf
    rcases Nat.lt_or_gt_of_ne hval with h | h
    · exact key i j h heq
    · exact key j i h heq.symm

/-- C23. `is_internal_double_spend()` is true if and only if there are two
distinct input positions whose previous-output points are equal: the
sort-then-adjacent-duplicate implementation agrees with the pairwise definition
for every input list, the empty and the single-input lists (false) included. -/
theorem is_internal_double_spend_iff (T : transaction) :
    (T.is_internal_double_spend = true ↔
        ∃ i j : Fin T.inputs_.length, i ≠ j ∧
          (T.inputs_.get i).previous_output.to_point
            = (T.inputs_.get j).previous_output.to_point)
      ∧ (T.inputs_ = [] → T.is_internal_double_spend = false)
      ∧ (∀ a : input, T.inputs_ = [a] → T.is_internal_double_spend = false) := by
  have hiff : T.is_internal_double_spend = true ↔
      ∃ i j : Fin T.inputs_.length, i ≠ j ∧
        (T.inputs_.get i).previous_output.to_point
          = (T.inputs_.get j).previous_output.to_point := by
    rw [is_internal_double_spend_iff_not_nodup, transaction.previous_outputs]
    exact not_nodup_map_iff _ _
  have hfalse : T.previous_outputs.Nodup → T.is_internal_double_spend = false := by
    intro hn
    cases h : T.is_internal_double_spend with
    | false => rfl
    | true => exact absurd hn ((is_internal_double_spend_iff_not_nodup T).mp h)
  refine ⟨hiff, ?_, ?_⟩
  · intro h
    apply hfalse
    simp [transaction.previous_outputs, h]
  · intro a h
    apply hfalse
    simp [transaction.previous_outputs, h]

/-! ## The duplicate rule of `accept` -/

theorem accept_rules_ne_success (E : externals) (T : transaction) (state : chain_state)
    (pool tx_duplicate final : Bool) :
    ∀ rule ∈ accept_rules E T state pool tx_duplicate final, rule.2 ≠ code.success := by
  intro rule hrule
  simp only [accept_rules, List.mem_cons, List.mem_singleton, List.not_mem_nil, or_false] at hrule
  rcases hrule with h | h | h | h | h | h | h | h | h <;> rw [h] <;> simp

theorem accept_success_rules (E : externals) (T : transaction) (state : chain_state)
    (pool tx_duplicate : Bool) (h : T.accept E state pool tx_duplicate = some code.success) :
    ∃ final : Bool, ∀ rule ∈ accept_rules E T state pool tx_duplicate final, rule.1 = false := by
  rcases accept_none_or_first_firing E T state pool tx_duplicate with hnone | ⟨final, hsome⟩
  · rw [hnone] at h
    exact Option.noConfusion h
  · rw [hsome, Option.some_inj] at h
    exact ⟨final, (first_firing_eq_success_iff _
      (accept_rules_ne_success E T state pool tx_duplicate final)).mp h⟩

theorem accept_fires (E : externals) (T : transaction) (state : chain_state)
    (pool tx_duplicate : Bool) (e : code) (he : e ≠ code.success)
    (h : T.accept E state pool tx_duplicate = some e) :
    ∃ final : Bool, (true, e) ∈ accept_rules E T state pool tx_duplicate final := by
  rcases accept_none_or_first_firing E T state pool tx_duplicate with hnone | ⟨final, hsome⟩
  · rw [hnone] at h
    exact Option.noConfusion h
  · rw [hsome, Option.some_inj] at h
    exact ⟨final, first_firing_fires _ _ h he⟩

/-- C24. The duplicate rule of `accept`: a known duplicate with bip30 enabled is
rejected with `unspent_duplicate`, when no earlier rule fires, unless
`allow_collisions` is enabled and the call is not in pool context, in which case
`accept` does not return `unspent_duplicate`; a pool submission of a duplicate
under bip30 is never accepted, whatever `allow_collisions` says; and without
bip30 or without `tx_duplicate`, `accept` never returns `unspent_duplicate`. -/
theorem accept_unspent_duplicate (E : externals) (T : transaction) (state : chain_state)
    (pool tx_duplicate : Bool) :
    (tx_duplicate = true → state.is_enabled rule_fork.bip30_rule = true →
        (state.is_enabled rule_fork.allow_collisions && !pool) = false →
        (pool && state.is_under_checkpoint) = false →
        (pool = true → T.is_final E state.height state.median_time_past = some true) →
        T.accept E state pool tx_duplicate = some code.unspent_duplicate)
      ∧ (state.is_enabled rule_fork.allow_collisions = true →
          T.accept E state false tx_duplicate ≠ some code.unspent_duplicate)
      ∧ (state.is_enabled rule_fork.bip30_rule = true →
          T.accept E state true true ≠ some code.success)
      ∧ (state.is_enabled rule_fork.bip30_rule = false ∨ tx_duplicate = false →
          T.accept E state pool tx_duplicate ≠ some code.unspent_duplicate) := by
  refine ⟨?_, ?_, ?_, ?_⟩
  · intro hdup hbip30 hallow hcp hfinal
    cases pool with
    | false =>
      simp only [Bool.not_false, Bool.and_true] at hallow
      simp [transaction.accept, hdup, hbip30, hallow]
    | true =>
      have hcp2 : state.is_under_checkpoint = false := by simpa using hcp
      simp [transaction.accept, hdup, hbip30, hcp2, hfinal rfl]
  · intro hallow h
    obtain ⟨final, hmem⟩ := accept_fires E T state false tx_duplicate _ (by decide) h
    simp [accept_rules, hallow] at hmem
  · intro hbip30 h
    obtain ⟨final, hall⟩ := accept_success_rules E T state true true h
    have h3 := hall (!(state.is_enabled rule_fork.allow_collisions && !true)
      && state.is_enabled rule_fork.bip30_rule && true, code.unspent_duplicate)
      (by simp [accept_rules])
    simp [hbip30] at h3
  · intro hor h
    obtain ⟨final, hmem⟩ := accept_fires E T state pool tx_duplicate _ (by decide) h
    rcases hor with hb | hd
    · simp [accept_rules, hb] at hmem
    · simp [accept_rules, hd] at hmem

/-- Instance of C24: with every fork enabled (the allowance of collisions
included) a known duplicate is rejected with `unspent_duplicate` in pool context
and is not in block context. -/
theorem accept_unspent_duplicate_witness :
    cached_prevout_transaction.accept reference_externals forked_chain_state true true
        = some code.unspent_duplicate
      ∧ cached_prevout_transaction.accept reference_externals forked_chain_state false true
        ≠ some code.unspent_duplicate :=
  ⟨(accept_unspent_duplicate reference_externals cached_prevout_transaction forked_chain_state
      true true).1 rfl (by decide) (by decide) (by decide) (fun _ => by decide),
    (accept_unspent_duplicate reference_externals cached_prevout_transaction forked_chain_state
      false true).2.1 (by decide)⟩

/-! ## Pool context against block context -/

/-- C27. The pool-context check is at least as strict as the block-context check:
for every transaction, `check(true) == success` implies `check(false) == success`
(a transaction that passes the pool check is not a coinbase, so the coinbase
script size rule cannot fire). -/
theorem check_pool_stricter (E : externals) (T : transaction)
    (h : T.check E true = code.success) : T.check E false = code.success := by
  unfold transaction.check at h ⊢
  split_ifs at h with h1 h2 h3 h4 h5 h6 h7
  have hcb : T.is_coinbase = false := by simpa using h5
  simp [h1, h2, h3, transaction.is_oversized_coinbase, hcb]

/-- Instance of C27: the sample transaction passes the pool-context check. -/
theorem check_pool_stricter_witness :
    sample_transaction.check reference_externals false = code.success :=
  check_pool_stricter reference_externals sample_transaction (by decide)

theorem is_double_spend_of_confirmed (T : transaction)
    (h : T.is_double_spend true = false) : T.is_double_spend false = false := by
  unfold transaction.is_double_spend at h ⊢
  rw [List.any_eq_false] at h ⊢
  intro i hi
  have hs := h i hi
  simp only [Bool.or_true, Bool.and_true, Bool.true_or] at hs
  simp [hs]

/-- C28. The pool-context accept is at least as strict as the block-context
accept: for every transaction, chain state and `tx_duplicate` flag,
`accept(state, true, d) == success` implies `accept(state, false, d) == success`. -/
theorem accept_pool_stricter (E : externals) (T : transaction) (state : chain_state)
    (tx_duplicate : Bool) (h : T.accept E state true tx_duplicate = some code.success) :
    T.accept E state false tx_duplicate = some code.success := by
  obtain ⟨final, hall⟩ := accept_success_rules E T state true tx_duplicate h
  rw [accept_of_final E T state false tx_duplicate true (fun hp _ => Bool.noConfusion hp),
    Option.some_inj,
    first_firing_eq_success_iff _ (accept_rules_ne_success E T state false tx_duplicate true)]
  simp only [accept_rules, List.mem_cons, List.mem_singleton, List.not_mem_nil, or_false,
    forall_eq_or_imp, forall_eq, Bool.true_and, Bool.not_true, Bool.and_false,
    Bool.not_false] at hall
  obtain ⟨_, _, h3, h4, h5, h6, h7, h8, _⟩ := hall
  have h5f := is_double_spend_of_confirmed T h5
  intro rule hrule
  simp only [accept_rules, List.mem_cons, List.mem_singleton, List.not_mem_nil,
    or_false] at hrule
  rcases hrule with r | r | r | r | r | r | r | r | r <;> rw [r] <;> simp_all

/-- Instance of C28: the transaction with a cached previous output and locktime
1 passes the pool-context accept at height 600000. -/
theorem accept_pool_stricter_witness :
    sample_locktime_transaction.accept reference_externals sample_chain_state false false
      = some code.success :=
  accept_pool_stricter reference_externals sample_locktime_transaction sample_chain_state
    false (by decide)

/-! ## Monotonicity of finality -/

/-- C30. Finality is monotone in chain progress: for every transaction and all
heights h <= h2 (both at most 2^32-1) and times t <= t2, `is_final(h, t)` implies
`is_final(h2, t2)`. -/
theorem is_final_monotone (E : externals) (T : transaction) (h h2 t t2 : Nat)
    (hh : h ≤ h2) (hmax : h2 ≤ max_uint32) (ht : t ≤ t2)
    (hf : T.is_final E h t = some true) : T.is_final E h2 t2 = some true := by
  rw [is_final_of_returns E T h t (Or.inl (Nat.le_trans hh hmax))] at hf
  rw [is_final_of_returns E T h2 t2 (Or.inl hmax)]
  simp only [Option.some.injEq, decide_eq_true_eq] at hf ⊢
  rcases hf with h0 | hlt | hall
  · exact Or.inl h0
  · refine Or.inr (Or.inl ?_)
    split_ifs at hlt ⊢ <;> omega
  · exact Or.inr (Or.inr hall)

/-- Instance of C30: the transaction with locktime 500000 is final at height
500001 and stays final at height 600000 and a later time. -/
theorem is_final_monotone_witness :
    locktime_transaction.is_final reference_externals 600000 1600000000 = some true :=
  is_final_monotone reference_externals locktime_transaction 500001 600000 1500000000
    1600000000 (by decide) (by decide) (by decide) (by decide)

/-! ## Soundness of the pipeline -/

theorem connect_input_verifies (E : externals) (T : transaction) (state : chain_state)
    (i : Nat) (hi : i < T.inputs_.length) (hcb : T.is_coinbase = false)
    (hvalid : ∀ inp ∈ T.inputs_, inp.previous_output.validation.cache_is_valid = true) :
    T.connect_input E state i = E.script_verify T (i % 2 ^ 32) state.enabled_forks := by
  have hget : T.inputs_.get? i = some (T.inputs_.get ⟨i, hi⟩) := List.get?_eq_get hi
  have hv := hvalid _ (List.get_mem T.inputs_ i hi)
  simp only [transaction.connect_input, if_neg (Nat.not_le.mpr hi), hcb, hget, hv,
    Bool.false_eq_true, if_false, Bool.not_true]

theorem connect_first_error (E : externals) (T : transaction) (state : chain_state) :
    T.connect E state = code.success
      ∨ ∃ i : Nat, i < T.inputs_.length ∧ T.connect E state = T.connect_input E state i := by
  rw [transaction.connect, connect_from_eq]
  cases hfind : (List.range' 0 T.inputs_.length).find?
      (fun i => (T.connect_input E state i).to_bool) with
  | none => exact Or.inl rfl
  | some i =>
    have hmem := List.mem_of_find?_eq_some hfind
    rw [List.mem_range'_1] at hmem
    exact Or.inr ⟨i, by omega, rfl⟩

theorem check_success_not_null (E : externals) (T : transaction) (pool : Bool)
    (h : T.check E pool = code.success) :
    T.inputs_ ≠ [] ∧ T.is_null_non_coinbase = false := by
  unfold transaction.check at h
  split_ifs at h with h1 h2
  constructor
  · intro hnil
    simp [hnil] at h1
  · simpa using h2

theorem accept_success_not_missing (E : externals) (T : transaction) (state : chain_state)
    (pool tx_duplicate : Bool) (h : T.accept E state pool tx_duplicate = some code.success) :
    T.is_missing_previous_outputs = false := by
  obtain ⟨final, hall⟩ := accept_success_rules E T state pool tx_duplicate h
  exact hall (T.is_missing_previous_outputs, code.missing_previous_output)
    (by simp [accept_rules])

/-- C29. Pipeline soundness: for every transaction and chain state, if `check` and
`accept` both return success (in any contexts), then every `connect_input` at an
index in range is success for a coinbase and the script verifier's code
otherwise, never `operation_failed` or `missing_previous_output` on its own
account, and the result of `connect` is success or a code returned by the script
verifier. -/
theorem pipeline_soundness (E : externals) (T : transaction) (state : chain_state)
    (check_pool accept_pool tx_duplicate : Bool)
    (hcheck : T.check E check_pool = code.success)
    (haccept : T.accept E state accept_pool tx_duplicate = some code.success) :
    (∀ i : Nat, i < T.inputs_.length →
        T.connect_input E state i =
          if T.is_coinbase then code.success
          else E.script_verify T (i % 2 ^ 32) state.enabled_forks)
      ∧ (T.connect E state = code.success
          ∨ ∃ i : Nat, i < T.inputs_.length
              ∧ T.connect E state = E.script_verify T (i % 2 ^ 32) state.enabled_forks) := by
  obtain ⟨_, hnull⟩ := check_success_not_null E T check_pool hcheck
  have hmissing := accept_success_not_missing E T state accept_pool tx_duplicate haccept
  have hinput : ∀ i : Nat, i < T.inputs_.length →
      T.connect_input E state i =
        if T.is_coinbase then code.success
        else E.script_verify T (i % 2 ^ 32) state.enabled_forks := by
    intro i hi
    cases hcb : T.is_coinbase with
    | true =>
      have hlen : T.inputs_.length = 1 := by
        simp only [transaction.is_coinbase, Bool.and_eq_true, beq_iff_eq] at hcb
        exact hcb.1
      have hi0 : i = 0 := by omega
      rw [hi0, connect_input_coinbase E T state hcb]
      rfl
    | false =>
      have hnonnull : ∀ inp ∈ T.inputs_, inp.previous_output.is_null = false := by
        simpa [transaction.is_null_non_coinbase, hcb] using hnull
      have hvalid : ∀ inp ∈ T.inputs_,
          inp.previous_output.validation.cache_is_valid = true := by
        intro inp hinp
        have hm : ∀ x ∈ T.inputs_, (!x.previous_output.validation.cache_is_valid
            && !x.previous_output.is_null) = false := by
          simpa [transaction.is_missing_previous_outputs, List.any_eq_false] using hmissing
        have h1 := hm inp hinp
        rw [hnonnull inp hinp] at h1
        simpa using h1
      rw [connect_input_verifies E T state i hi hcb hvalid]
      rfl
  refine ⟨hinput, ?_⟩
  rcases connect_first_error E T state with hs | ⟨i, hi, hc⟩
  · exact Or.inl hs
  · rw [hc, hinput i hi]
    cases hcb : T.is_coinbase with
    | true => exact Or.inl rfl
    | false => exact Or.inr ⟨i, hi, rfl⟩

/-- Instance of C29: the transaction with a cached previous output and locktime
1, checked and accepted in pool context at height 600000. -/
theorem pipeline_soundness_witness :
    (∀ i : Nat, i < sample_locktime_transaction.inputs_.length →
        sample_locktime_transaction.connect_input reference_externals sample_chain_state i =
          if sample_locktime_transaction.is_coinbase then code.success
          else reference_externals.script_verify sample_locktime_transaction (i % 2 ^ 32)
            sample_chain_state.enabled_forks)
      ∧ (sample_locktime_transaction.connect reference_externals sample_chain_state
            = code.success
          ∨ ∃ i : Nat, i < sample_locktime_transaction.inputs_.length
              ∧ sample_locktime_transaction.connect reference_externals sample_chain_state
                = reference_externals.script_verify sample_locktime_transaction (i % 2 ^ 32)
                  sample_chain_state.enabled_forks) :=
  pipeline_soundness reference_externals sample_locktime_transaction sample_chain_state
    true true false (by decide) (by decide)

/-- Passing `accept` alone is not enough for the conclusion of C29: a non-coinbase
transaction with a null previous output passes `accept` in block context, fails
`check` with `previous_output_null`, and `connect` returns
`missing_previous_output` on its own account. -/
theorem accept_alone_not_sound :
    null_input_transaction.accept reference_externals sample_chain_state false false
        = some code.success
      ∧ null_input_transaction.check reference_externals false = code.previous_output_null
      ∧ null_input_transaction.connect reference_externals sample_chain_state
        = code.missing_previous_output := by
  decide

/-! ## Deserialization of the empty byte string -/

theorem read_little_endian_empty (n : Nat) :
    reader.read_little_endian (n + 1) ⟨[], true⟩ = (0, ⟨[], false⟩) := by
  simp [reader.read_little_endian, reader.read_byte, read_little_endian_invalid]

theorem read_empty {Put : Type} (E : externals) (init : Put)
    (from_data : Put → reader → Bool → Bool × Put × reader) (wire : Bool) :
    read E init from_data ⟨[], true⟩ [] wire = (true, ⟨[], false⟩, []) := by
  simp [read, reader.read_size_little_endian, reader.read_variable_little_endian,
    reader.read_byte, max_size_t, resize, deserialize_each]

theorem from_data_empty_resets (E : externals) (prior : transaction) (wire : Bool) :
    prior.from_data_chunk E [] wire = (false, ⟨0, 0, [], []⟩) := by
  have hinv : (⟨[], false⟩ : reader).valid = false := rfl
  cases wire with
  | true =>
    simp only [transaction.from_data_chunk, transaction.from_data, reader.of_data,
      transaction.reset, if_true, reader.read_4_bytes_little_endian, read_little_endian_empty,
      read_of_invalid E _ _ _ true hinv, read_little_endian_invalid _ _ hinv]
    simp
  | false =>
    simp only [transaction.from_data_chunk, transaction.from_data, reader.of_data,
      transaction.reset, Bool.false_eq_true, if_false, if_true, read_empty,
      read_of_invalid E _ _ _ false hinv, read_variable_invalid _ hinv]
    simp [max_uint32]

theorem chain_transaction_from_data_empty (E : externals) :
    chain_transaction_from_data E [] = (false, ⟨0, 0, [], []⟩) := by
  have hinv : (⟨[], false⟩ : reader).valid = false := rfl
  simp only [chain_transaction_from_data, reader.of_data,
    reader.read_4_bytes_little_endian, read_little_endian_empty,
    read_of_invalid E _ _ _ true hinv, read_little_endian_invalid _ _ hinv]
  simp

/-- C26 fails on the code. On the empty byte string, the `raw_tx` that the test
cases `test_get_keoken_output_create_asset_valid` and
`test_get_keoken_output_send_tokens_valid` pass, `from_data` returns false and
leaves the reset transaction, for which `is_valid()` is false, so the
`REQUIRE(tx.is_valid())` of the two test cases does not hold: both for the
transaction class of the tests as the specification describes it, and for
`chainv2::transaction::from_data` in either layout and from any prior state. -/
theorem from_data_empty_fails_is_valid (E : externals) :
    (chain_transaction_from_data E []).1 = false
      ∧ (chain_transaction_from_data E []).2 = ⟨0, 0, [], []⟩
      ∧ chain_transaction_is_valid (chain_transaction_from_data E []).2 = false
      ∧ ∀ (prior : transaction) (wire : Bool),
          (prior.from_data_chunk E [] wire).1 = false
            ∧ (prior.from_data_chunk E [] wire).2 = ⟨0, 0, [], []⟩
            ∧ (prior.from_data_chunk E [] wire).2.is_valid = false := by
  rw [chain_transaction_from_data_empty]
  refine ⟨rfl, rfl, rfl, ?_⟩
  intro prior wire
  rw [from_data_empty_resets]
  exact ⟨rfl, rfl, rfl⟩

set_option maxRecDepth 100000 in
/-- The raw transaction of the test case `test_get_keoken_output_empty` is parsed by
the transaction class of the tests under the reference element layouts, and the
parsed transaction is valid: there the `REQUIRE(tx.is_valid())` holds. -/
theorem chain_transaction_from_data_test_raw_transaction :
    (chain_transaction_from_data reference_externals test_raw_transaction).1 = true
      ∧ chain_transaction_is_valid
          (chain_transaction_from_data reference_externals test_raw_transaction).2 = true := by
  decide

set_option maxRecDepth 100000 in
/-- The raw transaction of the first test case is parsed by `from_data` under the
reference element layouts, and the parsed transaction is valid. -/
theorem from_data_test_raw_transaction_is_valid :
    (transaction.transaction.from_data_chunk reference_externals test_raw_transaction
        true).1 = true
      ∧ (transaction.transaction.from_data_chunk reference_externals test_raw_transaction
        true).2.is_valid = true := by
  decide

/-! ## The range check of the store layout -/

theorem from_data_store_eq (E : externals) (prior : transaction) (source : reader) :
    prior.from_data E source false =
      (if (store_locktime E source).1 > max_uint32 ∨ (store_version E source).1 > max_uint32
        then (false, ⟨0, 0, [], []⟩, (store_version E source).2.invalidate)
        else if (store_version E source).2.valid = true then
          (true, ⟨(store_version E source).1 % 2 ^ 32, (store_locktime E source).1 % 2 ^ 32,
            (if (read E E.output_default E.output_from_data source [] false).1 = true then
              read E E.input_default E.input_from_data
                (read E E.output_default E.output_from_data source [] false).2.1 [] false
              else (false, (read E E.output_default E.output_from_data source [] false).2.1,
                [])).2.2,
            (read E E.output_default E.output_from_data source [] false).2.2⟩,
            (store_version E source).2)
        else (false, ⟨0, 0, [], []⟩, (store_version E source).2)) := by
  unfold store_version store_locktime store_locktime_reader
  simp only [transaction.from_data, transaction.reset, Bool.false_eq_true, if_false]
  split_ifs with h1 h2 <;> simp_all [reader.invalidate]

theorem read_zero_count {Put : Type} (E : externals) (init : Put)
    (from_data : Put → reader → Bool → Bool × Put × reader) (tail : data_chunk)
    (wire : Bool) :
    read E init from_data ⟨write_variable_little_endian 0 ++ tail, true⟩ [] wire
      = (true, ⟨tail, true⟩, []) := by
  unfold read
  rw [read_size_write_variable 0 (Nat.zero_le _)]
  simp [resize, deserialize_each]

theorem store_locktime_of_bytes (E : externals) (locktime version : Nat) (rest : data_chunk)
    (hl : locktime ≤ max_uint64) (hv : version ≤ max_uint64) :
    (store_locktime E (reader.of_data (write_variable_little_endian 0
        ++ (write_variable_little_endian 0 ++ (write_variable_little_endian locktime
        ++ (write_variable_little_endian version ++ rest)))))).1 = locktime
      ∧ (store_version E (reader.of_data (write_variable_little_endian 0
        ++ (write_variable_little_endian 0 ++ (write_variable_little_endian locktime
        ++ (write_variable_little_endian version ++ rest)))))).1 = version := by
  unfold store_version store_locktime store_locktime_reader reader.of_data
  simp only [read_zero_count, if_true, read_variable_write_variable locktime hl,
    read_variable_write_variable version hv, and_self]

/-- C31. Store-layout range check: when `from_data` is called with wire = false
and the variable-length locktime or version read from the source exceeds 2^32-1,
the source is invalidated, `from_data` returns false and the transaction is left
in the reset state; whenever `from_data` returns true in the store layout the
locktime and version fields are the values read, not truncated ones; in
particular for a valid reader over bytes that encode such a locktime or
version. -/
theorem store_range_check (E : externals) (prior : transaction) (source : reader) :
    ((store_locktime E source).1 > max_uint32 ∨ (store_version E source).1 > max_uint32 →
        (prior.from_data E source false).1 = false
          ∧ (prior.from_data E source false).2.1 = ⟨0, 0, [], []⟩
          ∧ (prior.from_data E source false).2.2.valid = false)
      ∧ ((prior.from_data E source false).1 = true →
          (store_locktime E source).1 ≤ max_uint32
            ∧ (store_version E source).1 ≤ max_uint32
            ∧ (prior.from_data E source false).2.1.locktime_ = (store_locktime E source).1
            ∧ (prior.from_data E source false).2.1.version_ = (store_version E source).1)
      ∧ (∀ (locktime version : Nat) (rest : data_chunk),
          locktime > max_uint32 ∨ version > max_uint32 →
          locktime ≤ max_uint64 → version ≤ max_uint64 →
          prior.from_data_chunk E (write_variable_little_endian 0
            ++ (write_variable_little_endian 0 ++ (write_variable_little_endian locktime
            ++ (write_variable_little_endian version ++ rest)))) false
              = (false, ⟨0, 0, [], []⟩)) := by
  have hrange : ∀ s : reader,
      (store_locktime E s).1 > max_uint32 ∨ (store_version E s).1 > max_uint32 →
        (prior.from_data E s false).1 = false
          ∧ (prior.from_data E s false).2.1 = ⟨0, 0, [], []⟩
          ∧ (prior.from_data E s false).2.2.valid = false := by
    intro s h
    rw [from_data_store_eq, if_pos h]
    exact ⟨rfl, rfl, rfl⟩
  refine ⟨hrange source, ?_, ?_⟩
  · intro htrue
    rw [from_data_store_eq] at htrue ⊢
    by_cases h : (store_locktime E source).1 > max_uint32
        ∨ (store_version E source).1 > max_uint32
    · rw [if_pos h] at htrue
      exact Bool.noConfusion htrue
    · rw [if_neg h] at htrue ⊢
      have hl : (store_locktime E source).1 ≤ max_uint32 := by omega
      have hv : (store_version E source).1 ≤ max_uint32 := by omega
      by_cases hvalid : (store_version E source).2.valid = true
      · rw [if_pos hvalid]
        unfold max_uint32 at hl hv
        exact ⟨by unfold max_uint32; omega, by unfold max_uint32; omega,
          Nat.mod_eq_of_lt (by omega), Nat.mod_eq_of_lt (by omega)⟩
      · rw [if_neg hvalid] at htrue
        exact Bool.noConfusion htrue
  · intro locktime version rest hover hl hv
    have hvals := store_locktime_of_bytes E locktime version rest hl hv
    have hfail := hrange (reader.of_data (write_variable_little_endian 0
        ++ (write_variable_little_endian 0 ++ (write_variable_little_endian locktime
        ++ (write_variable_little_endian version ++ rest))))) (by rw [hvals.1, hvals.2]; exact hover)
    simp only [transaction.from_data_chunk, hfail.1, hfail.2.1]

/-- Instance of C31: store bytes with no output, no input, the locktime 2^32 and
the version 1. -/
theorem store_range_check_witness :
    (sample_transaction.from_data reference_externals
        (reader.of_data [0, 0, 255, 0, 0, 0, 0, 1, 0, 0, 0, 1]) false).1 = false
      ∧ (sample_transaction.from_data reference_externals
        (reader.of_data [0, 0, 255, 0, 0, 0, 0, 1, 0, 0, 0, 1]) false).2.1 = ⟨0, 0, [], []⟩
      ∧ (sample_transaction.from_data reference_externals
        (reader.of_data [0, 0, 255, 0, 0, 0, 0, 1, 0, 0, 0, 1]) false).2.2.valid = false :=
  (store_range_check reference_externals sample_transaction
    (reader.of_data [0, 0, 255, 0, 0, 0, 0, 1, 0, 0, 0, 1])).1 (Or.inl (by decide))

end chainv2
